import Mathlib

/-!
Verification of the client-side caching and batching layer: the batch
request engine (Batch), the page iterator (GraphPageIterator), the TTL
freshness checks used by the entity accessors, and the photo accessor
myPhoto.  Each definition is a shallow embedding of the corresponding
source function; stateful code is modelled by explicit state passing and
the HTTP transport by an oracle function passed as an argument.
-/

namespace Mgt

/-- A queued batch request: `BatchRequest` from the source, with
`index` the assignment order, `id` the caller-supplied correlation key
and `resource` the relative path.  The method is always GET and headers
are not needed by any property proved here. -/
structure BatchRequest where
  index : Nat
  id : String
  resource : String
  deriving Repr, DecidableEq

instance : Inhabited BatchRequest := ⟨⟨0, "", ""⟩⟩

/-- The body of one sub-response of a composite batch response.  In the
source the discrimination is on the JavaScript dynamic type
(`typeof r.body === 'string'`); structured (non-string) payloads are
carried opaquely as a tag. -/
inductive Body where
  | str (s : String)
  | structured (s : String)
  deriving Repr, DecidableEq

/-- One sub-response of the composite batch response: `r.id` parsed as a
request index, the HTTP status, the declared Content-Type header, the
parsed Retry-After header (none when absent or unparseable) and the
body. -/
structure SubResponse where
  index : Nat
  status : Nat
  contentType : String
  retryAfterHeader : Option Nat
  body : Body
  deriving Repr, DecidableEq

/-- The decoded content stored in a BatchResponse: `undef` when the
source leaves `response.content` unassigned, `text` for a data-URI
string, `structured` for a passed-through non-string body. -/
inductive Content where
  | undef
  | text (s : String)
  | structured (s : String)
  deriving Repr, DecidableEq

/-- The result map of executeNext / executeAll, a JavaScript Map keyed
by the caller's original request id. -/
abbrev RMap : Type := List (String × Content)

/-- JavaScript Map.set semantics: overwrite in place when the key is
present (keeping insertion order), append otherwise. -/
def mapSet : RMap → String → Content → RMap
  | [], k, v => [(k, v)]
  | p :: m, k, v => if p.1 = k then (k, v) :: m else p :: mapSet m k v

/-- JavaScript Map.get semantics. -/
def mapGet : RMap → String → Option Content
  | [], _ => none
  | p :: m, k => if p.1 = k then some p.2 else mapGet m k

/-- The merge loop of executeAll: every entry of the round map is set
into the accumulated map. -/
def mergeMap (m m1 : RMap) : RMap :=
  m1.foldl (fun acc kv => mapSet acc kv.1 kv.2) m

/-- Whether the first character list starts with the second. -/
def charsStartsWith : List Char → List Char → Bool
  | _, [] => true
  | [], _ :: _ => false
  | c :: cs, d :: ds => c = d && charsStartsWith cs ds

/-- Whether the second character list occurs inside the first. -/
def charsIncludes : List Char → List Char → Bool
  | l, n =>
    match l with
    | [] => charsStartsWith [] n
    | c :: cs => charsStartsWith (c :: cs) n || charsIncludes cs n

/-- Model of JavaScript String.includes (substring containment), used
by the Content-Type checks of executeNext. -/
def containsStr (h n : String) : Bool :=
  charsIncludes h.data n.data

/-- The body decoding of executeNext for a 200 sub-response (source
lines on status 200): a string body with an image Content-Type is
re-encoded into a base64 data-URI; a non-string body is passed through;
a string body with any other Content-Type leaves the content
unassigned. -/
def decodeContent (ct : String) : Body → Content
  | .str s =>
    if containsStr ct "image/jpeg" then .text ("data:image/jpeg;base64," ++ s)
    else if containsStr ct "image/pjpeg" then .text ("data:image/pjpeg;base64," ++ s)
    else if containsStr ct "image/png" then .text ("data:image/png;base64," ++ s)
    else .undef
  | .structured v => .structured v

/-- The effective Retry-After value used on a 429 sub-response: the
source computes `parseInt(header, 10) || 1`, so a missing, unparseable
or zero header becomes 1 second. -/
def effectiveRetryAfter : Option Nat → Nat
  | some n => if n = 0 then 1 else n
  | none => 1

/-- The mutable state of a Batch instance: the append-only list of all
requests ever added, the FIFO queue of pending indices, the accumulated
scopes, the next assignment index and the pending retry delay in
seconds. -/
structure BatchState where
  allRequests : List BatchRequest
  requestsQueue : List Nat
  scopes : List String
  nextIndex : Nat
  retryAfter : Nat
  deriving Repr, DecidableEq

/-- The state of a freshly constructed Batch. -/
def Batch.empty : BatchState :=
  { allRequests := [], requestsQueue := [], scopes := [], nextIndex := 0, retryAfter := 0 }

/-- Batch.get: enqueue a request under the next index and accumulate
scopes; does not execute anything. -/
def Batch.get (st : BatchState) (id resource : String) (scopes : List String) : BatchState :=
  { st with
    allRequests := st.allRequests ++ [⟨st.nextIndex, id, resource⟩]
    requestsQueue := st.requestsQueue ++ [st.nextIndex]
    scopes := st.scopes ++ scopes
    nextIndex := st.nextIndex + 1 }

/-- A batch built from a list of (id, resource) pairs by successive
Batch.get calls. -/
def mkBatch (reqs : List (String × String)) : BatchState :=
  reqs.foldl (fun st p => Batch.get st p.1 p.2 []) Batch.empty

/-- The batch transport oracle: given the ordinal of the transport call
and the issued sub-requests, either the list of sub-responses of the
composite response or a transport failure carrying the thrown value. -/
def Transport : Type :=
  Nat → List BatchRequest → Except String (List SubResponse)

/-- A well-behaved transport built from a per-call, per-index response
oracle: the server answers each issued sub-request exactly once, in
order. -/
def mkTransport (resp : Nat → Nat → SubResponse) : Transport :=
  fun c issued => .ok (issued.map (fun rq => resp c rq.index))

/-- The demultiplexing step of executeNext for one sub-response,
threading (pending queue, retryAfter, round map): a 200 decodes the
body and sets the map entry under the caller's id; a 429 unshifts the
index onto the front of the queue and raises retryAfter to the max of
its current value and the effective Retry-After; any other status is
dropped. -/
def processSub (all : List BatchRequest) (acc : List Nat × Nat × RMap) (r : SubResponse) :
    List Nat × Nat × RMap :=
  let rq := all.getD r.index default
  if r.status = 200 then
    (acc.1, acc.2.1, mapSet acc.2.2 rq.id (decodeContent r.contentType r.body))
  else if r.status = 429 then
    (r.index :: acc.1, max acc.2.1 (effectiveRetryAfter r.retryAfterHeader), acc.2.2)
  else
    acc

/-- Batch.executeNext: wait out a pending retry delay (the returned
first component is the seconds slept, performed before anything else),
return immediately when the queue is empty, otherwise splice up to 20
indices off the front of the queue, issue them in one transport call
and demultiplex the sub-responses.  A transport failure propagates
unchanged.  Also returns the issued sub-request list for the
transport-call bookkeeping of the theorems. -/
def Batch.executeNext (tr : Transport) (c : Nat) (st : BatchState) :
    Nat × Except String (BatchState × RMap × List BatchRequest) :=
  let delayed := st.retryAfter
  let st1 : BatchState := { st with retryAfter := 0 }
  if st1.requestsQueue.isEmpty then
    (delayed, .ok (st1, ([] : RMap), []))
  else
    let nextBatch := st1.requestsQueue.take 20
    let rest := st1.requestsQueue.drop 20
    let issued := nextBatch.map (fun i => st1.allRequests.getD i default)
    match tr c issued with
    | .error e => (delayed, .error e)
    | .ok subs =>
      let res := subs.foldl (processSub st1.allRequests) (rest, 0, ([] : RMap))
      (delayed, .ok ({ st1 with requestsQueue := res.1, retryAfter := res.2.1 }, res.2.2, issued))

/-- Batch.executeAll, fuelled: loop executeNext while the queue is not
empty, merging the partial result maps.  Returns the final state, the
merged map, the number of transport calls made, and the trace of
(call ordinal, issued indices) pairs; none signals fuel exhaustion
(the source loop would still be running). -/
def Batch.executeAllAux (tr : Transport) :
    Nat → Nat → BatchState → RMap → List (Nat × List Nat) →
    Except String (Option (BatchState × RMap × Nat × List (Nat × List Nat)))
  | 0, c, st, m, trace =>
    if st.requestsQueue.isEmpty then .ok (some (st, m, c, trace)) else .ok none
  | fuel + 1, c, st, m, trace =>
    if st.requestsQueue.isEmpty then .ok (some (st, m, c, trace))
    else
      match Batch.executeNext tr c st with
      | (_, .error e) => .error e
      | (_, .ok (st', m1, _)) =>
        Batch.executeAllAux tr fuel (c + 1) st' (mergeMap m m1)
          (trace ++ [(c, st.requestsQueue.take 20)])

/-- Batch.executeAll started on a fresh call counter with an empty
accumulated map. -/
def Batch.executeAll (tr : Transport) (fuel : Nat) (st : BatchState) :
    Except String (Option (BatchState × RMap × Nat × List (Nat × List Nat))) :=
  Batch.executeAllAux tr fuel 0 st [] []

/-- A page of a paginated collection as the server returns it:
`value` is the item list (none when the field is absent or null) and
`odataNextLink` the continuation link field. -/
structure CollectionResponse (T : Type) where
  value : Option (List T)
  odataNextLink : Option String
  deriving Repr, DecidableEq

/-- JavaScript truthiness of the stored continuation link: undefined,
null and the empty string are falsy. -/
def truthyLink : Option String → Bool
  | none => false
  | some s => s ≠ ""

/-- The state of a GraphPageIterator: the accumulated items, the raw
stored continuation link and the request version. -/
structure GraphPageIterator (T : Type) where
  value : List T
  nextLinkRaw : Option String
  version : String
  deriving Repr, DecidableEq

/-- GraphPageIterator.hasNext: the truthiness of the stored
continuation link. -/
def GraphPageIterator.hasNext (it : GraphPageIterator T) : Bool :=
  truthyLink it.nextLinkRaw

/-- The nextLink getter of the source, which turns a missing link into
the empty string. -/
def GraphPageIterator.nextLink (it : GraphPageIterator T) : String :=
  it.nextLinkRaw.getD ""

/-- The `version || graph.version` fallback of the source constructors:
a missing or empty explicit version falls back to the graph default. -/
def versionOrDefault (v : Option String) (dflt : String) : String :=
  match v with
  | some s => if s = "" then dflt else s
  | none => dflt

/-- GraphPageIterator.create, applied to the already-fetched first-page
response (the network call itself is the caller-visible request.get()):
a response with a non-null value field yields an iterator seeded with
that value and the response's continuation link; otherwise null. -/
def GraphPageIterator.create (resp : Option (CollectionResponse T)) (version : Option String)
    (graphVersion : String) : Option (GraphPageIterator T) :=
  match resp with
  | some r =>
    match r.value with
    | some v =>
      some { value := v, nextLinkRaw := r.odataNextLink,
             version := versionOrDefault version graphVersion }
    | none => none
  | none => none

/-- GraphPageIterator.createFromValue: a purely synchronous constructor
from a previously cached (value, nextLink) pair; it takes no fetch
oracle, which embeds that no network call is made. -/
def GraphPageIterator.createFromValue (value : List T) (nextLink : Option String)
    (graphVersion : String) : GraphPageIterator T :=
  { value := value, nextLinkRaw := nextLink, version := graphVersion }

/-- The next-page resource of GraphPageIterator.next: the stored link
split on the version string, second piece. -/
def GraphPageIterator.nextResource (it : GraphPageIterator T) : String :=
  ((it.nextLinkRaw.getD "").splitOn it.version).getD 1 ""

/-- GraphPageIterator.next: when the stored link is truthy, fetch the
next page at the derived resource; on a response with a non-empty value
list, append the items and take the response's continuation link,
returning the increment; in every other case (falsy link, null
response, missing value, zero items) leave the iterator unchanged and
return null.  The third component logs the resources requested, for
the no-network-call bookkeeping of the theorems. -/
def GraphPageIterator.next (fetch : String → Option (CollectionResponse T))
    (it : GraphPageIterator T) :
    GraphPageIterator T × Option (List T) × List String :=
  if truthyLink it.nextLinkRaw then
    let res := it.nextResource
    match fetch res with
    | some r =>
      match r.value with
      | some items =>
        if items.length ≠ 0 then
          ({ value := it.value ++ items, nextLinkRaw := r.odataNextLink,
             version := it.version }, some items, [res])
        else (it, none, [res])
      | none => (it, none, [res])
    | none => (it, none, [res])
  else (it, none, [])

/-- The strict reading of the page-iterator termination claim: a
next-page response carrying no continuation link makes hasNext false
even when it also carried zero items. -/
def emptyPageTerminatesStrict : Prop :=
  ∀ (it : GraphPageIterator Nat) (fetch : String → Option (CollectionResponse Nat)),
    it.hasNext = true →
    (∀ res, fetch res = some ⟨some [], none⟩) →
    (GraphPageIterator.next fetch it).1.hasNext = false

/-- A concrete iterator with one page pending, for the page-iterator
witnesses. -/
def pageItW : GraphPageIterator Nat :=
  GraphPageIterator.createFromValue [] (some "v1.0/things?skip=1") "v1.0"

/-- A concrete exhausted iterator. -/
def pageItEndW : GraphPageIterator Nat :=
  GraphPageIterator.createFromValue [7] none "v1.0"

/-- A fetch oracle returning one more item and a further link. -/
def fetchMoreW : String → Option (CollectionResponse Nat) :=
  fun _ => some ⟨some [1], some "v1.0/things?skip=2"⟩

/-- A fetch oracle returning an empty page without a continuation
link. -/
def fetchEmptyW : String → Option (CollectionResponse Nat) :=
  fun _ => some ⟨some [], none⟩

/-- The first-page state of the round-trip witness, as produced by a
live create. -/
def pageIt8W : GraphPageIterator Nat :=
  { value := [5], nextLinkRaw := some "v1.0/next", version := "v1.0" }

/-- The second-page fetch oracle of the round-trip witness. -/
def fetch8W : String → Option (CollectionResponse Nat) :=
  fun _ => some ⟨some [6], none⟩

/-- The effective invalidation period of an accessor category:
`category.invalidationPeriod || defaultInvalidationPeriod`, where a
missing or zero category period (both falsy) falls back to the
default. -/
def effectiveInvalidation (category : Option Int) (dflt : Int) : Int :=
  match category with
  | some p => if p = 0 then dflt else p
  | none => dflt

/-- getPhotoInvalidationTime of graph.photos.ts. -/
def getPhotoInvalidationTime (photosPeriod : Option Int) (dflt : Int) : Int :=
  effectiveInvalidation photosPeriod dflt

/-- getGroupsInvalidationTime of the groups accessor. -/
def getGroupsInvalidationTime (groupsPeriod : Option Int) (dflt : Int) : Int :=
  effectiveInvalidation groupsPeriod dflt

/-- getCardStateInvalidationTime of the person-card accessor (backed by
the users category). -/
def getCardStateInvalidationTime (usersPeriod : Option Int) (dflt : Int) : Int :=
  effectiveInvalidation usersPeriod dflt

/-- The freshness check of getContactPhoto:
getPhotoInvalidationTime() > Date.now() - photoDetails.timeCached. -/
def contactPhotoFresh (photosPeriod : Option Int) (dflt now timeCached : Int) : Prop :=
  getPhotoInvalidationTime photosPeriod dflt > now - timeCached

instance : ∀ p d n t, Decidable (contactPhotoFresh p d n t) := by
  intro p d n t
  unfold contactPhotoFresh
  infer_instance

/-- The freshness check of findGroups:
getGroupsInvalidationTime() > Date.now() - cacheGroupQuery.timeCached. -/
def findGroupsFresh (groupsPeriod : Option Int) (dflt now timeCached : Int) : Prop :=
  getGroupsInvalidationTime groupsPeriod dflt > now - timeCached

instance : ∀ p d n t, Decidable (findGroupsFresh p d n t) := by
  intro p d n t
  unfold findGroupsFresh
  infer_instance

/-- The freshness check of getPersonCardGraphData:
getCardStateInvalidationTime() > Date.now() - cardState.timeCached. -/
def personCardFresh (usersPeriod : Option Int) (dflt now timeCached : Int) : Prop :=
  getCardStateInvalidationTime usersPeriod dflt > now - timeCached

instance : ∀ p d n t, Decidable (personCardFresh p d n t) := by
  intro p d n t
  unfold personCardFresh
  infer_instance

/-- Whether an Except value is a success. -/
def exceptOk : Except ε α → Bool
  | .ok _ => true
  | .error _ => false

/-- JavaScript object property assignment on a string-keyed record used
as a dictionary: overwrite in place when the key is present, append
otherwise. -/
def dictSet : List (String × Option String) → String → Option String →
    List (String × Option String)
  | [], k, v => [(k, v)]
  | p :: m, k, v => if p.1 = k then (k, v) :: m else p :: dictSet m k v

/-- The string a BatchResponse content renders to when truthy; an
unassigned content is falsy and never read. -/
def contentString : Content → Option String
  | .undef => none
  | .text s => some s
  | .structured s => some s

/-- The per-id cache-probe-and-enqueue loop body of
getGroupsForGroupIds: seed the dictionary entry with null, overwrite it
on a fresh cache hit, otherwise enqueue a batch request for a non-empty
id and record the id as not-in-cache. -/
def groupIdStep (cacheEnabled : Bool) (cacheHit : String → Option (Option String))
    (filters : String)
    (acc : List (String × Option String) × BatchState × List String) (id : String) :
    List (String × Option String) × BatchState × List String :=
  let dict := dictSet acc.1 id none
  match (if cacheEnabled then cacheHit id else none) with
  | some parsed => (dictSet dict id parsed, acc.2.1, acc.2.2)
  | none =>
    if id ≠ "" then
      let apiUrl := "/groups/" ++ id ++ (if filters ≠ "" then "?$filters=" ++ filters else "")
      (dict, Batch.get acc.2.1 id apiUrl ["GroupMember.Read.All"], acc.2.2 ++ [id])
    else (dict, acc.2.1, acc.2.2)

/-- getGroupsForGroupIds: probe the cache per id, enqueue the misses
into one batch, executeAll it; on success demultiplex the result map
back into the dictionary; if the batch call throws, fall back to an
individual getGroup call per not-in-cache id, and if that also fails
return the empty list.  The cacheHit oracle returns the parsed group of
a fresh cache entry, none on a miss or stale entry; the getGroupOracle
is the individual getGroup fallback.  Output: the resulting group list
(none when the fuelled batch loop did not finish), paired with the list
of ids fetched individually in the fallback. -/
def getGroupsForGroupIds (cacheEnabled : Bool) (cacheHit : String → Option (Option String))
    (tr : Transport) (fuel : Nat) (getGroupOracle : String → Except String (Option String))
    (groupIds : List String) (filters : String) :
    Option (List (Option String)) × List String :=
  if groupIds.isEmpty then (some [], [])
  else
    let start : List (String × Option String) × BatchState × List String :=
      ([], Batch.empty, [])
    let acc := groupIds.foldl (groupIdStep cacheEnabled cacheHit filters) start
    let dict := acc.1
    let notInCache := acc.2.2
    match Batch.executeAll tr fuel acc.2.1 with
    | .ok none => (none, [])
    | .ok (some (_, m, _, _)) =>
      let dict2 := groupIds.foldl
        (fun d id =>
          match mapGet m id with
          | some c =>
            match contentString c with
            | some s => dictSet d id (some s)
            | none => d
          | none => d) dict
      (some (dict2.map (fun p => p.2)), [])
    | .error _ =>
      let fallbackIds := groupIds.filter (fun id => notInCache.contains id)
      if fallbackIds.all (fun id => exceptOk (getGroupOracle id)) then
        let dict2 := fallbackIds.foldl
          (fun d id =>
            match getGroupOracle id with
            | .ok g => dictSet d id g
            | .error _ => d) dict
        (some (dict2.map (fun p => p.2)), fallbackIds)
      else (some [], fallbackIds)

/-- A cached photo entry (CachePhoto): eTag and photo may each be
null. -/
structure CachePhoto where
  eTag : Option String
  photo : Option String
  timeCached : Int
  deriving Repr, DecidableEq

/-- The me/photo metadata response: the @odata.mediaEtag field may be
absent or null. -/
structure ProfilePhotoMeta where
  mediaEtag : Option String
  deriving Repr, DecidableEq

/-- myPhoto of graph.photos.ts.  Inputs: the two cache-enable flags
(getIsPhotosCacheEnabled is their conjunction), the cached entry for
the me key, the photos invalidation configuration, the current time,
the result of the me/photo metadata request (error = the request
rejected) and the result getPhotoForResource would return for the
photo content.  Output: the returned photo, paired with whether the
photo content fetch (getPhotoForResource) was performed.  When the
cache is disabled, photoDetails is the JavaScript undefined, modelled
as none: evaluating photoDetails.eTag in the metadata comparison then
throws a TypeError, which the surrounding catch turns into a null
return. -/
def myPhoto (categoryEnabled globalEnabled : Bool) (cached : Option CachePhoto)
    (photosPeriod : Option Int) (dflt now : Int)
    (mePhotoResp : Except Unit (Option ProfilePhotoMeta))
    (photoForMe : Option CachePhoto) : Option String × Bool :=
  let cacheEnabled := categoryEnabled && globalEnabled
  let photoDetails : Option CachePhoto := if cacheEnabled then cached else none
  let freshHit :=
    cacheEnabled &&
      match photoDetails with
      | some pd => decide (contactPhotoFresh photosPeriod dflt now pd.timeCached)
      | none => false
  match photoDetails, freshHit with
  | some pd, true => (pd.photo, false)
  | _, _ =>
    match mePhotoResp with
    | .error _ => (none, false)
    | .ok resp =>
      match resp with
      | some r =>
        match photoDetails with
        | none => (none, false)
        | some pd =>
          let photoDetails2 : Option CachePhoto :=
            if r.mediaEtag ≠ pd.eTag ∨ (r.mediaEtag = none ∧ pd.eTag = none) then none
            else photoDetails
          match photoDetails2 with
          | some pd2 => (pd2.photo, false)
          | none =>
            (match photoForMe with
             | some pd3 => pd3.photo
             | none => none, true)
      | none =>
        match photoDetails with
        | some pd2 => (pd2.photo, false)
        | none =>
          (match photoForMe with
           | some pd3 => pd3.photo
           | none => none, true)

/-- The caller id of the request at index i. -/
def idOf (A : List BatchRequest) (i : Nat) : String := (A.getD i default).id

/-- The indices of a round that came back throttled. -/
def round429 (resp : Nat → Nat → SubResponse) (c : Nat) (nb : List Nat) : List Nat :=
  nb.filter (fun i => (resp c i).status = 429)

/-- The retryAfter value accumulated over a round, starting from ra0. -/
def roundRetry (resp : Nat → Nat → SubResponse) (c : Nat) (nb : List Nat) (ra0 : Nat) : Nat :=
  (round429 resp c nb).foldl
    (fun a i => max a (effectiveRetryAfter (resp c i).retryAfterHeader)) ra0

/-- The result map of a round: one entry per 200 sub-response, keyed by
the caller id, holding the decoded content, in issue order. -/
def roundMap (A : List BatchRequest) (resp : Nat → Nat → SubResponse) (c : Nat)
    (nb : List Nat) : RMap :=
  (nb.filter (fun i => (resp c i).status = 200)).map
    (fun i => (idOf A i, decodeContent (resp c i).contentType (resp c i).body))

/-- Every appearance of index i in the trace so far was throttled. -/
def pendingIn (resp : Nat → Nat → SubResponse) (trace : List (Nat × List Nat)) (i : Nat) :
    Prop :=
  ∀ p ∈ trace, i ∈ p.2 → (resp p.1 i).status = 429

/-- Index i received a 200 at some traced call and the accumulated map
holds its decoded content under its caller id. -/
def doneOK (A : List BatchRequest) (resp : Nat → Nat → SubResponse)
    (trace : List (Nat × List Nat)) (m : RMap) (i : Nat) : Prop :=
  ∃ p ∈ trace, i ∈ p.2 ∧ (resp p.1 i).status = 200 ∧
    mapGet m (idOf A i) = some (decodeContent (resp p.1 i).contentType (resp p.1 i).body)

/-- Index i never received a 200 and its caller id is absent from the
accumulated map. -/
def doneDrop (A : List BatchRequest) (resp : Nat → Nat → SubResponse)
    (trace : List (Nat × List Nat)) (m : RMap) (i : Nat) : Prop :=
  (∀ p ∈ trace, i ∈ p.2 → (resp p.1 i).status ≠ 200) ∧ mapGet m (idOf A i) = none

/-- The loop invariant of executeAll: the request list is fixed, the
pending queue holds distinct valid indices whose history is all-429 and
whose ids are absent from the map, every settled index is either
completed-with-200 or dropped, and the accumulated map has distinct
keys all belonging to settled indices. -/
structure BatchInv (A : List BatchRequest) (resp : Nat → Nat → SubResponse)
    (st : BatchState) (m : RMap) (trace : List (Nat × List Nat)) : Prop where
  allEq : st.allRequests = A
  qNodup : st.requestsQueue.Nodup
  qLt : ∀ i ∈ st.requestsQueue, i < A.length
  qPending : ∀ i ∈ st.requestsQueue, pendingIn resp trace i ∧ mapGet m (idOf A i) = none
  qDone : ∀ i, i < A.length → i ∉ st.requestsQueue →
    doneOK A resp trace m i ∨ doneDrop A resp trace m i
  keysDone : ∀ p ∈ m, ∃ i, i < A.length ∧ i ∉ st.requestsQueue ∧ idOf A i = p.1
  keysNodup : (m.map Prod.fst).Nodup

/-- The request list produced by successive Batch.get calls starting at
assignment index n. -/
def batchRequestsFrom (n : Nat) : List (String × String) → List BatchRequest
  | [] => []
  | p :: rest => ⟨n, p.1, p.2⟩ :: batchRequestsFrom (n + 1) rest

/-- A transport response oracle for witnesses: every sub-request
succeeds with a structured payload. -/
def respW : Nat → Nat → SubResponse := fun _ i =>
  ⟨i, 200, "application/json", none, Body.structured "x"⟩

/-- A one-request batch input for witnesses. -/
def reqsW : List (String × String) := [("a", "/a")]

/-- The 25-request scenario input: 25 GET requests with distinct
ids. -/
def reqs25 : List (String × String) :=
  (List.range 25).map (fun k => ("id" ++ toString k, "/r/" ++ toString k))

/-- The 25-request scenario run with an all-200 transport. -/
def run25 : Except String (Option (BatchState × RMap × Nat × List (Nat × List Nat))) :=
  Batch.executeAll (mkTransport respW) 3 (mkBatch reqs25)

/-- A transport response oracle that throttles every sub-request with
Retry-After 2. -/
def resp429 : Nat → Nat → SubResponse := fun _ i =>
  ⟨i, 429, "text/plain", some 2, Body.str ""⟩

/-- The state after executeNext throttles the single request of
reqsW. -/
def st429W : BatchState :=
  { allRequests := [⟨0, "a", "/a"⟩], requestsQueue := [0], scopes := [],
    nextIndex := 1, retryAfter := 2 }

/-- The strict reading of the throttling re-queue claim: every 429'd
request ends up ahead (by queue position) of every request with a
larger assignment index (added after it) that is still pending after
the call. -/
def throttledAheadStrict : Prop :=
  ∀ (resp : Nat → Nat → SubResponse) (st : BatchState) (c d : Nat)
    (st' : BatchState) (m1 : RMap) (issued : List BatchRequest),
    st.requestsQueue.Nodup →
    (∀ i, (resp c i).index = i) →
    Batch.executeNext (mkTransport resp) c st = (d, .ok (st', m1, issued)) →
    ∀ i ∈ st.requestsQueue.take 20, (resp c i).status = 429 →
      ∀ j ∈ st'.requestsQueue, i < j →
        st'.requestsQueue.indexOf i < st'.requestsQueue.indexOf j

/-- A transport response oracle failing every sub-request with a
non-200, non-429 status. -/
def respDrop : Nat → Nat → SubResponse := fun _ i =>
  ⟨i, 404, "text/plain", none, Body.str ""⟩

/-- A transport response oracle answering 200 with a plain-text string
body. -/
def respText : Nat → Nat → SubResponse := fun _ i =>
  ⟨i, 200, "text/plain", none, Body.str "hello"⟩

/-- A transport response oracle answering 200 with a jpeg string
body. -/
def respJpeg : Nat → Nat → SubResponse := fun _ i =>
  ⟨i, 200, "image/jpeg", none, Body.str "QkFTRTY0"⟩

/-- The strict reading of the decode claim: every 200 sub-response
with a string body and a non-image declared Content-Type has its body
passed through into the result-map entry as structured content. -/
def stringBodyPassthroughStrict : Prop :=
  ∀ (resp : Nat → Nat → SubResponse) (st : BatchState) (c d : Nat) (st' : BatchState)
    (m1 : RMap) (issued : List BatchRequest),
    (∀ i, (resp c i).index = i) →
    Batch.executeNext (mkTransport resp) c st = (d, .ok (st', m1, issued)) →
    ∀ i ∈ st.requestsQueue.take 20, (resp c i).status = 200 →
      ∀ s, (resp c i).body = .str s →
      containsStr (resp c i).contentType "image/jpeg" = false →
      containsStr (resp c i).contentType "image/pjpeg" = false →
      containsStr (resp c i).contentType "image/png" = false →
      mapGet m1 (idOf st.allRequests i) = some (.structured s)

/-- A transport whose composite call always rejects. -/
def trFail : Transport := fun _ _ => .error "network"

/-- Whether an id of getGroupsForGroupIds misses the cache and is
enqueued into the batch: no fresh cache hit and a non-empty id. -/
def groupIdQualifies (cacheEnabled : Bool) (cacheHit : String → Option (Option String))
    (id : String) : Bool :=
  (if cacheEnabled then cacheHit id else none).isNone && id ≠ ""

/-- The number of transport calls a finished executeAll run made. -/
def runCallCount (r : Except String (Option (BatchState × RMap × Nat × List (Nat × List Nat)))) :
    Option Nat :=
  match r with
  | .ok (some (_, _, c, _)) => some c
  | _ => none

/-- The sizes of the sub-request groups of each transport call of a
finished executeAll run. -/
def runTraceSizes (r : Except String (Option (BatchState × RMap × Nat × List (Nat × List Nat)))) :
    Option (List Nat) :=
  match r with
  | .ok (some (_, _, _, t)) => some (t.map (fun p => p.2.length))
  | _ => none

/-- The size of the merged result map of a finished executeAll run. -/
def runMapSize (r : Except String (Option (BatchState × RMap × Nat × List (Nat × List Nat)))) :
    Option Nat :=
  match r with
  | .ok (some (_, m, _, _)) => some m.length
  | _ => none

/-! Lemmas about the result-map model. -/

theorem mapGet_mapSet_self (m : RMap) (k : String) (v : Content) :
    mapGet (mapSet m k v) k = some v := by
  induction m with
  | nil => simp [mapSet, mapGet]
  | cons p m ih =>
    by_cases h : p.1 = k
    · simp [mapSet, mapGet, h]
    · simp [mapSet, mapGet, h, ih]

theorem mapGet_mapSet_ne (m : RMap) (k k' : String) (v : Content) (h : k' ≠ k) :
    mapGet (mapSet m k v) k' = mapGet m k' := by
  have hne : k ≠ k' := fun hh => h hh.symm
  induction m with
  | nil => simp [mapSet, mapGet, hne]
  | cons p m ih =>
    by_cases hp : p.1 = k
    · have hp' : p.1 ≠ k' := by rw [hp]; exact hne
      simp [mapSet, mapGet, hp, hne, hp']
    · by_cases hp' : p.1 = k'
      · simp [mapSet, mapGet, hp, hp', h]
      · simp [mapSet, mapGet, hp, hp', ih]

theorem mapSet_of_get_none (m : RMap) (k : String) (v : Content) (h : mapGet m k = none) :
    mapSet m k v = m ++ [(k, v)] := by
  induction m with
  | nil => simp [mapSet]
  | cons p m ih =>
    by_cases hp : p.1 = k
    · simp [mapGet, hp] at h
    · simp [mapGet, hp] at h
      simp [mapSet, hp, ih h]

theorem mapGet_append (m1 m2 : RMap) (k : String) :
    mapGet (m1 ++ m2) k = match mapGet m1 k with
      | some v => some v
      | none => mapGet m2 k := by
  induction m1 with
  | nil => simp [mapGet]
  | cons p m ih =>
    by_cases hp : p.1 = k
    · simp [mapGet, hp]
    · simp [mapGet, hp, ih]

theorem mapGet_eq_none_of_keys (m : RMap) (k : String)
    (h : ∀ p ∈ m, p.1 ≠ k) : mapGet m k = none := by
  induction m with
  | nil => rfl
  | cons p m ih =>
    have hp : p.1 ≠ k := h p (by simp)
    simp [mapGet, hp]
    exact ih (fun q hq => h q (by simp [hq]))

theorem mergeMap_eq_append (m m1 : RMap)
    (hfresh : ∀ p ∈ m1, mapGet m p.1 = none)
    (hnodup : (m1.map Prod.fst).Nodup) :
    mergeMap m m1 = m ++ m1 := by
  induction m1 generalizing m with
  | nil => simp [mergeMap]
  | cons q rest ih =>
    have hq : mapGet m q.1 = none := hfresh q (by simp)
    have hstep : mapSet m q.1 q.2 = m ++ [(q.1, q.2)] := mapSet_of_get_none m q.1 q.2 hq
    have hqnotin : q.1 ∉ rest.map Prod.fst := by
      rw [List.map_cons, List.nodup_cons] at hnodup
      exact hnodup.1
    have hrest : ∀ p ∈ rest, mapGet (mapSet m q.1 q.2) p.1 = none := by
      intro p hp
      have hne : p.1 ≠ q.1 := by
        intro hcontra
        apply hqnotin
        rw [← hcontra]
        exact List.mem_map_of_mem Prod.fst hp
      rw [mapGet_mapSet_ne m q.1 p.1 q.2 hne]
      exact hfresh p (by simp [hp])
    have hnodup' : (rest.map Prod.fst).Nodup := by
      rw [List.map_cons, List.nodup_cons] at hnodup
      exact hnodup.2
    calc mergeMap m (q :: rest)
        = mergeMap (mapSet m q.1 q.2) rest := by simp [mergeMap, List.foldl_cons]
      _ = mapSet m q.1 q.2 ++ rest := ih (mapSet m q.1 q.2) hrest hnodup'
      _ = m ++ q :: rest := by rw [hstep]; simp

theorem mapGet_mapList (l : List Nat) (key : Nat → String) (val : Nat → Content) (i : Nat)
    (hi : i ∈ l) (hinj : ∀ j ∈ l, key j = key i → j = i) :
    mapGet (l.map (fun j => (key j, val j))) (key i) = some (val i) := by
  induction l with
  | nil => simp at hi
  | cons j rest ih =>
    by_cases hj : key j = key i
    · have : j = i := hinj j (by simp) hj
      simp [mapGet, this]
    · have hi' : i ∈ rest := by
        rcases List.mem_cons.mp hi with h | h
        · exact absurd (by rw [h]) hj
        · exact h
      simp [mapGet, hj]
      exact ih hi' (fun q hq => hinj q (by simp [hq]))

theorem mapGet_mapList_none (l : List Nat) (key : Nat → String) (val : Nat → Content)
    (k : String) (h : ∀ j ∈ l, key j ≠ k) :
    mapGet (l.map (fun j => (key j, val j))) k = none := by
  apply mapGet_eq_none_of_keys
  intro p hp
  simp at hp
  rcases hp with ⟨j, hj, hpj⟩
  rw [← hpj]
  exact h j hj

/-! Characterization of one executeNext round. -/

theorem foldl_processSub (A : List BatchRequest) (resp : Nat → Nat → SubResponse) (c : Nat)
    (nb : List Nat) :
    ∀ (q0 : List Nat) (ra0 : Nat) (m0 : RMap),
    (∀ i ∈ nb, (resp c i).index = i) →
    (∀ i ∈ nb, (resp c i).status = 200 → mapGet m0 (idOf A i) = none) →
    (∀ i ∈ nb, ∀ j ∈ nb, idOf A i = idOf A j → i = j) →
    nb.Nodup →
    (nb.map (resp c)).foldl (processSub A) (q0, ra0, m0) =
      ((round429 resp c nb).reverse ++ q0,
       roundRetry resp c nb ra0,
       m0 ++ roundMap A resp c nb) := by
  induction nb with
  | nil =>
    intro q0 ra0 m0 _ _ _ _
    simp [round429, roundRetry, roundMap]
  | cons i nb ih =>
    intro q0 ra0 m0 hr hfresh hids hnodup
    have hri : (resp c i).index = i := hr i (by simp)
    have hnodup' : nb.Nodup := (List.nodup_cons.mp hnodup).2
    have hinotin : i ∉ nb := (List.nodup_cons.mp hnodup).1
    have hr' : ∀ j ∈ nb, (resp c j).index = j := fun j hj => hr j (by simp [hj])
    have hids' : ∀ j ∈ nb, ∀ j' ∈ nb, idOf A j = idOf A j' → j = j' :=
      fun j hj j' hj' => hids j (by simp [hj]) j' (by simp [hj'])
    by_cases h200 : (resp c i).status = 200
    · have hstep : processSub A (q0, ra0, m0) (resp c i) =
          (q0, ra0, mapSet m0 (idOf A i) (decodeContent (resp c i).contentType (resp c i).body)) := by
        simp [processSub, hri, h200, idOf]
      have hset : mapSet m0 (idOf A i) (decodeContent (resp c i).contentType (resp c i).body) =
          m0 ++ [(idOf A i, decodeContent (resp c i).contentType (resp c i).body)] :=
        mapSet_of_get_none _ _ _ (hfresh i (by simp) h200)
      have hfresh' : ∀ j ∈ nb, (resp c j).status = 200 →
          mapGet (m0 ++ [(idOf A i, decodeContent (resp c i).contentType (resp c i).body)])
            (idOf A j) = none := by
        intro j hj hj200
        rw [mapGet_append]
        rw [hfresh j (by simp [hj]) hj200]
        have hne : idOf A i ≠ idOf A j := by
          intro hcontra
          exact hinotin (by rw [hids i (by simp) j (by simp [hj]) hcontra]; exact hj)
        simp [mapGet, hne]
      rw [List.map_cons, List.foldl_cons, hstep, hset,
        ih q0 ra0 _ hr' hfresh' hids' hnodup']
      have hm : roundMap A resp c (i :: nb) =
          (idOf A i, decodeContent (resp c i).contentType (resp c i).body) ::
            roundMap A resp c nb := by
        simp [roundMap, List.filter_cons, h200]
      have h429 : round429 resp c (i :: nb) = round429 resp c nb := by
        simp [round429, List.filter_cons, h200]
      have hrr : roundRetry resp c (i :: nb) ra0 = roundRetry resp c nb ra0 := by
        simp [roundRetry, h429]
      rw [hm, h429, hrr]
      simp
    · by_cases h429 : (resp c i).status = 429
      · have hstep : processSub A (q0, ra0, m0) (resp c i) =
            (i :: q0, max ra0 (effectiveRetryAfter (resp c i).retryAfterHeader), m0) := by
          simp [processSub, hri, h200, h429]
        rw [List.map_cons, List.foldl_cons, hstep,
          ih (i :: q0) _ m0 hr' (fun j hj hj200 => hfresh j (by simp [hj]) hj200)
            hids' hnodup']
        have hf : round429 resp c (i :: nb) = i :: round429 resp c nb := by
          simp [round429, List.filter_cons, h429]
        have hm : roundMap A resp c (i :: nb) = roundMap A resp c nb := by
          simp [roundMap, List.filter_cons, h200]
        have hrr : roundRetry resp c (i :: nb) ra0 =
            roundRetry resp c nb (max ra0 (effectiveRetryAfter (resp c i).retryAfterHeader)) := by
          simp [roundRetry, hf, List.foldl_cons]
        rw [hf, hm, hrr]
        simp
      · have hstep : processSub A (q0, ra0, m0) (resp c i) = (q0, ra0, m0) := by
          simp [processSub, hri, h200, h429]
        rw [List.map_cons, List.foldl_cons, hstep,
          ih q0 ra0 m0 hr' (fun j hj hj200 => hfresh j (by simp [hj]) hj200)
            hids' hnodup']
        have hf : round429 resp c (i :: nb) = round429 resp c nb := by
          simp [round429, List.filter_cons, h429]
        have hm : roundMap A resp c (i :: nb) = roundMap A resp c nb := by
          simp [roundMap, List.filter_cons, h200]
        have hrr : roundRetry resp c (i :: nb) ra0 = roundRetry resp c nb ra0 := by
          simp [roundRetry, hf]
        rw [hf, hm, hrr]

theorem executeNext_mk (A : List BatchRequest) (resp : Nat → Nat → SubResponse)
    (st : BatchState) (c : Nat)
    (hall : st.allRequests = A)
    (hne : st.requestsQueue ≠ [])
    (HA : ∀ i ∈ st.requestsQueue.take 20, (A.getD i default).index = i)
    (HR : ∀ i, (resp c i).index = i)
    (hids : ∀ i ∈ st.requestsQueue.take 20, ∀ j ∈ st.requestsQueue.take 20,
      idOf A i = idOf A j → i = j)
    (hnodup : (st.requestsQueue.take 20).Nodup) :
    Batch.executeNext (mkTransport resp) c st =
      (st.retryAfter, .ok
        ({ st with
            requestsQueue := (round429 resp c (st.requestsQueue.take 20)).reverse ++
              st.requestsQueue.drop 20,
            retryAfter := roundRetry resp c (st.requestsQueue.take 20) 0 },
         roundMap A resp c (st.requestsQueue.take 20),
         (st.requestsQueue.take 20).map (fun i => A.getD i default))) := by
  have hq : st.requestsQueue.isEmpty = false := by
    simpa [List.isEmpty_iff] using hne
  have hmapmap : ((st.requestsQueue.take 20).map (fun i => A.getD i default)).map
      (fun rq => resp c rq.index) = (st.requestsQueue.take 20).map (resp c) := by
    rw [List.map_map]
    apply List.map_congr_left
    intro i hi
    show resp c (A.getD i default).index = resp c i
    rw [HA i hi]
  have hfold := foldl_processSub A resp c (st.requestsQueue.take 20)
    (st.requestsQueue.drop 20) 0 []
    (fun i hi => HR i) (fun i _ _ => rfl) hids hnodup
  simp only [Batch.executeNext, hall, hq, Bool.false_eq_true, if_false, mkTransport,
    hmapmap, hfold, List.nil_append]

/-! The executeAll loop invariant. -/

theorem roundMap_keys (A : List BatchRequest) (resp : Nat → Nat → SubResponse) (c : Nat)
    (nb : List Nat) :
    (roundMap A resp c nb).map Prod.fst =
      (nb.filter (fun i => (resp c i).status = 200)).map (idOf A) := by
  simp [roundMap, List.map_map]

theorem mem_roundMap (A : List BatchRequest) (resp : Nat → Nat → SubResponse) (c : Nat)
    (nb : List Nat) (p : String × Content) (hp : p ∈ roundMap A resp c nb) :
    ∃ i ∈ nb, (resp c i).status = 200 ∧
      p = (idOf A i, decodeContent (resp c i).contentType (resp c i).body) := by
  simp [roundMap] at hp
  rcases hp with ⟨i, ⟨hi, hs⟩, hpi⟩
  exact ⟨i, hi, hs, hpi.symm⟩

theorem mapGet_roundMap_none (A : List BatchRequest) (resp : Nat → Nat → SubResponse)
    (c : Nat) (nb : List Nat) (k : String)
    (h : ∀ i ∈ nb, (resp c i).status = 200 → idOf A i ≠ k) :
    mapGet (roundMap A resp c nb) k = none := by
  apply mapGet_eq_none_of_keys
  intro p hp
  rcases mem_roundMap A resp c nb p hp with ⟨i, hi, hs, hpi⟩
  rw [hpi]
  exact h i hi hs

theorem mapGet_roundMap_some (A : List BatchRequest) (resp : Nat → Nat → SubResponse)
    (c : Nat) (nb : List Nat) (i : Nat)
    (hi : i ∈ nb) (hs : (resp c i).status = 200)
    (hids : ∀ j ∈ nb, ∀ j' ∈ nb, idOf A j = idOf A j' → j = j') :
    mapGet (roundMap A resp c nb) (idOf A i) =
      some (decodeContent (resp c i).contentType (resp c i).body) := by
  unfold roundMap
  apply mapGet_mapList
  · exact List.mem_filter.mpr ⟨hi, by simp [hs]⟩
  · intro j hj
    have hj' := List.mem_filter.mp hj
    exact fun hEq => hids j hj'.1 i hi hEq

theorem BatchInv.step {A : List BatchRequest} {resp : Nat → Nat → SubResponse}
    {st : BatchState} {m : RMap} {trace : List (Nat × List Nat)}
    (inv : BatchInv A resp st m trace)
    (HA : ∀ i, i < A.length → (A.getD i default).index = i)
    (Hinj : ∀ i, i < A.length → ∀ j, j < A.length → idOf A i = idOf A j → i = j)
    (HR : ∀ c i, (resp c i).index = i)
    (hne : st.requestsQueue ≠ []) (c : Nat) :
    Batch.executeNext (mkTransport resp) c st =
      (st.retryAfter, .ok
        ({ st with
            requestsQueue := (round429 resp c (st.requestsQueue.take 20)).reverse ++
              st.requestsQueue.drop 20,
            retryAfter := roundRetry resp c (st.requestsQueue.take 20) 0 },
         roundMap A resp c (st.requestsQueue.take 20),
         (st.requestsQueue.take 20).map (fun i => A.getD i default))) ∧
    BatchInv A resp
      { st with
          requestsQueue := (round429 resp c (st.requestsQueue.take 20)).reverse ++
            st.requestsQueue.drop 20,
          retryAfter := roundRetry resp c (st.requestsQueue.take 20) 0 }
      (mergeMap m (roundMap A resp c (st.requestsQueue.take 20)))
      (trace ++ [(c, st.requestsQueue.take 20)]) := by
  have hnbq : ∀ i ∈ st.requestsQueue.take 20, i ∈ st.requestsQueue := by
    intro i hi
    rw [← List.take_append_drop 20 st.requestsQueue]
    exact List.mem_append_left _ hi
  have hrestq : ∀ i ∈ st.requestsQueue.drop 20, i ∈ st.requestsQueue := by
    intro i hi
    rw [← List.take_append_drop 20 st.requestsQueue]
    exact List.mem_append_right _ hi
  have hql : (st.requestsQueue.take 20 ++ st.requestsQueue.drop 20).Nodup := by
    rw [List.take_append_drop]
    exact inv.qNodup
  obtain ⟨hnbN, hrestN, hdisj⟩ := List.nodup_append.mp hql
  have hnbLt : ∀ i ∈ st.requestsQueue.take 20, i < A.length :=
    fun i hi => inv.qLt i (hnbq i hi)
  have hids : ∀ i ∈ st.requestsQueue.take 20, ∀ j ∈ st.requestsQueue.take 20,
      idOf A i = idOf A j → i = j :=
    fun i hi j hj => Hinj i (hnbLt i hi) j (hnbLt j hj)
  have HAnb : ∀ i ∈ st.requestsQueue.take 20, (A.getD i default).index = i :=
    fun i hi => HA i (hnbLt i hi)
  have hexec := executeNext_mk A resp st c inv.allEq hne HAnb (HR c) hids hnbN
  refine ⟨hexec, ?_⟩
  have h429mem : ∀ i, i ∈ round429 resp c (st.requestsQueue.take 20) ↔
      (i ∈ st.requestsQueue.take 20 ∧ (resp c i).status = 429) := by
    intro i
    simp [round429, List.mem_filter]
  have hm1fresh : ∀ p ∈ roundMap A resp c (st.requestsQueue.take 20),
      mapGet m p.1 = none := by
    intro p hp
    rcases mem_roundMap A resp c _ p hp with ⟨i, hi, _, hpi⟩
    rw [hpi]
    exact (inv.qPending i (hnbq i hi)).2
  have hm1nodup : ((roundMap A resp c (st.requestsQueue.take 20)).map Prod.fst).Nodup := by
    rw [roundMap_keys]
    apply List.Nodup.map_on
    · intro i hi j hj hEq
      have hi' := (List.mem_filter.mp hi).1
      have hj' := (List.mem_filter.mp hj).1
      exact hids i hi' j hj' hEq
    · exact hnbN.filter _
  have hmerge : mergeMap m (roundMap A resp c (st.requestsQueue.take 20)) =
      m ++ roundMap A resp c (st.requestsQueue.take 20) :=
    mergeMap_eq_append _ _ hm1fresh hm1nodup
  have hQ'mem : ∀ i, i ∈ (round429 resp c (st.requestsQueue.take 20)).reverse ++
      st.requestsQueue.drop 20 ↔
      ((i ∈ st.requestsQueue.take 20 ∧ (resp c i).status = 429) ∨
        i ∈ st.requestsQueue.drop 20) := by
    intro i
    rw [List.mem_append, List.mem_reverse, h429mem]
  refine ⟨inv.allEq, ?_, ?_, ?_, ?_, ?_, ?_⟩
  · -- qNodup
    apply List.nodup_append.mpr
    refine ⟨List.nodup_reverse.mpr (hnbN.filter _), hrestN, ?_⟩
    intro a ha ha'
    rw [List.mem_reverse] at ha
    exact hdisj ((h429mem a).mp ha).1 ha'
  · -- qLt
    intro i hi
    rcases (hQ'mem i).mp hi with ⟨hi', _⟩ | hi'
    · exact hnbLt i hi'
    · exact inv.qLt i (hrestq i hi')
  · -- qPending
    intro i hi
    rcases (hQ'mem i).mp hi with ⟨hin, h429⟩ | hirest
    · constructor
      · intro p hp hip
        rcases List.mem_append.mp hp with hp' | hp'
        · exact (inv.qPending i (hnbq i hin)).1 p hp' hip
        · have : p = (c, st.requestsQueue.take 20) := by simpa using hp'
          rw [this]
          exact h429
      · rw [hmerge, mapGet_append, (inv.qPending i (hnbq i hin)).2]
        exact mapGet_roundMap_none A resp c _ _ (fun j hj hj200 hEq => by
          have : j = i := hids j hj i hin hEq
          rw [this] at hj200
          rw [hj200] at h429
          exact absurd h429 (by decide))
    · constructor
      · intro p hp hip
        rcases List.mem_append.mp hp with hp' | hp'
        · exact (inv.qPending i (hrestq i hirest)).1 p hp' hip
        · have hpc : p = (c, st.requestsQueue.take 20) := by simpa using hp'
          rw [hpc] at hip
          exact absurd hirest (hdisj hip)
      · rw [hmerge, mapGet_append, (inv.qPending i (hrestq i hirest)).2]
        exact mapGet_roundMap_none A resp c _ _ (fun j hj _ hEq => by
          have : j = i := Hinj j (hnbLt j hj) i (inv.qLt i (hrestq i hirest)) hEq
          rw [this] at hj
          exact hdisj hj hirest)
  · -- qDone
    intro i hiA hiQ'
    rw [hQ'mem] at hiQ'
    push_neg at hiQ'
    by_cases hiq : i ∈ st.requestsQueue
    · have hin : i ∈ st.requestsQueue.take 20 := by
        rcases List.mem_append.mp (by rw [List.take_append_drop]; exact hiq :
          i ∈ st.requestsQueue.take 20 ++ st.requestsQueue.drop 20) with h | h
        · exact h
        · exact absurd h hiQ'.2
      have h429 : (resp c i).status ≠ 429 := hiQ'.1 hin
      by_cases h200 : (resp c i).status = 200
      · left
        refine ⟨(c, st.requestsQueue.take 20), List.mem_append_right _ (by simp), hin,
          h200, ?_⟩
        rw [hmerge, mapGet_append, (inv.qPending i hiq).2]
        exact mapGet_roundMap_some A resp c _ i hin h200 hids
      · right
        constructor
        · intro p hp hip
          rcases List.mem_append.mp hp with hp' | hp'
          · rw [(inv.qPending i hiq).1 p hp' hip]
            decide
          · have hpc : p = (c, st.requestsQueue.take 20) := by simpa using hp'
            rw [hpc]
            exact h200
        · rw [hmerge, mapGet_append, (inv.qPending i hiq).2]
          exact mapGet_roundMap_none A resp c _ _ (fun j hj hj200 hEq => by
            have : j = i := hids j hj i hin hEq
            rw [this] at hj200
            exact h200 hj200)
    · rcases inv.qDone i hiA hiq with hok | hdrop
      · left
        rcases hok with ⟨p, hp, hip, hs, hget⟩
        refine ⟨p, List.mem_append_left _ hp, hip, hs, ?_⟩
        rw [hmerge, mapGet_append, hget]
      · right
        constructor
        · intro p hp hip
          rcases List.mem_append.mp hp with hp' | hp'
          · exact hdrop.1 p hp' hip
          · have hpc : p = (c, st.requestsQueue.take 20) := by simpa using hp'
            rw [hpc] at hip
            exact absurd (hnbq i hip) hiq
        · rw [hmerge, mapGet_append, hdrop.2]
          exact mapGet_roundMap_none A resp c _ _ (fun j hj _ hEq => by
            have : j = i := Hinj j (hnbLt j hj) i hiA hEq
            rw [this] at hj
            exact hiq (hnbq i hj))
  · -- keysDone
    intro p hp
    rw [hmerge] at hp
    rcases List.mem_append.mp hp with hp' | hp'
    · rcases inv.keysDone p hp' with ⟨i, hiA, hiq, hid⟩
      refine ⟨i, hiA, ?_, hid⟩
      intro hcontra
      rcases (hQ'mem i).mp hcontra with ⟨hin, _⟩ | hin
      · exact hiq (hnbq i hin)
      · exact hiq (hrestq i hin)
    · rcases mem_roundMap A resp c _ p hp' with ⟨i, hi, hs, hpi⟩
      refine ⟨i, hnbLt i hi, ?_, by rw [hpi]⟩
      intro hcontra
      rcases (hQ'mem i).mp hcontra with ⟨_, h429⟩ | hin
      · rw [hs] at h429
        exact absurd h429 (by decide)
      · exact hdisj hi hin
  · -- keysNodup
    rw [hmerge, List.map_append]
    apply List.nodup_append.mpr
    refine ⟨inv.keysNodup, hm1nodup, ?_⟩
    intro k hk hk1
    rcases List.mem_map.mp hk with ⟨p, hp, hpk⟩
    rcases inv.keysDone p hp with ⟨i, hiA, hiq, hid⟩
    rcases List.mem_map.mp hk1 with ⟨p', hp', hpk'⟩
    rcases mem_roundMap A resp c _ p' hp' with ⟨j, hj, _, hpj⟩
    have hkeq : idOf A i = idOf A j := by
      rw [hid, hpk, ← hpk', hpj]
    have : i = j := Hinj i hiA j (hnbLt j hj) hkeq
    rw [this] at hiq
    exact hiq (hnbq j hj)

theorem executeAllAux_inv (A : List BatchRequest) (resp : Nat → Nat → SubResponse)
    (HA : ∀ i, i < A.length → (A.getD i default).index = i)
    (Hinj : ∀ i, i < A.length → ∀ j, j < A.length → idOf A i = idOf A j → i = j)
    (HR : ∀ c i, (resp c i).index = i) :
    ∀ (fuel c : Nat) (st : BatchState) (m : RMap) (trace : List (Nat × List Nat))
      (stF : BatchState) (mF : RMap) (cF : Nat) (traceF : List (Nat × List Nat)),
    BatchInv A resp st m trace →
    Batch.executeAllAux (mkTransport resp) fuel c st m trace =
      .ok (some (stF, mF, cF, traceF)) →
    BatchInv A resp stF mF traceF ∧ stF.requestsQueue = [] := by
  intro fuel
  induction fuel with
  | zero =>
    intro c st m trace stF mF cF traceF inv hrun
    unfold Batch.executeAllAux at hrun
    by_cases hq : st.requestsQueue.isEmpty
    · simp only [hq, if_true] at hrun
      obtain ⟨h1, h2, h3, h4⟩ := by simpa using hrun
      subst h1
      subst h2
      subst h4
      exact ⟨inv, List.isEmpty_iff.mp hq⟩
    · simp [hq] at hrun
  | succ fuel ih =>
    intro c st m trace stF mF cF traceF inv hrun
    unfold Batch.executeAllAux at hrun
    by_cases hq : st.requestsQueue.isEmpty
    · simp only [hq, if_true] at hrun
      obtain ⟨h1, h2, h3, h4⟩ := by simpa using hrun
      subst h1
      subst h2
      subst h4
      exact ⟨inv, List.isEmpty_iff.mp hq⟩
    · have hne : st.requestsQueue ≠ [] := by simpa [List.isEmpty_iff] using hq
      obtain ⟨hexec, hinv'⟩ := inv.step HA Hinj HR hne c
      rw [if_neg (by simpa [List.isEmpty_iff] using hq), hexec] at hrun
      exact ih _ _ _ _ _ _ _ _ hinv' hrun

/-! The state built by a sequence of Batch.get calls. -/

theorem batchRequestsFrom_length (reqs : List (String × String)) :
    ∀ n, (batchRequestsFrom n reqs).length = reqs.length := by
  induction reqs with
  | nil => intro n; rfl
  | cons p rest ih =>
    intro n
    simp [batchRequestsFrom, ih]

theorem batchRequestsFrom_getD (reqs : List (String × String)) :
    ∀ (n i : Nat), i < reqs.length →
    (batchRequestsFrom n reqs).getD i default =
      ⟨n + i, (reqs.getD i ("", "")).1, (reqs.getD i ("", "")).2⟩ := by
  induction reqs with
  | nil =>
    intro n i hi
    simp at hi
  | cons p rest ih =>
    intro n i hi
    cases i with
    | zero => simp [batchRequestsFrom]
    | succ i =>
      have hi' : i < rest.length := by simpa using hi
      simp only [batchRequestsFrom, List.getD_cons_succ]
      rw [ih (n + 1) i hi']
      simp only [BatchRequest.mk.injEq]
      repeat' apply And.intro
      all_goals first | rfl | omega | trivial

theorem foldl_get_spec (reqs : List (String × String)) :
    ∀ st : BatchState,
    reqs.foldl (fun s p => Batch.get s p.1 p.2 []) st =
      { allRequests := st.allRequests ++ batchRequestsFrom st.nextIndex reqs,
        requestsQueue := st.requestsQueue ++ List.range' st.nextIndex reqs.length,
        scopes := st.scopes,
        nextIndex := st.nextIndex + reqs.length,
        retryAfter := st.retryAfter } := by
  induction reqs with
  | nil =>
    intro st
    simp only [List.foldl_nil, batchRequestsFrom, List.length_nil, List.range'_zero,
      List.append_nil, Nat.add_zero]
  | cons p rest ih =>
    intro st
    rw [List.foldl_cons, ih]
    simp only [Batch.get, batchRequestsFrom, List.length_cons, List.range'_succ,
      BatchState.mk.injEq, List.append_assoc, List.singleton_append, List.cons_append,
      List.append_nil, true_and, and_true]
    repeat' apply And.intro
    all_goals first | rfl | omega

theorem mkBatch_spec (reqs : List (String × String)) :
    mkBatch reqs =
      { allRequests := batchRequestsFrom 0 reqs,
        requestsQueue := List.range' 0 reqs.length,
        scopes := [],
        nextIndex := reqs.length,
        retryAfter := 0 } := by
  unfold mkBatch Batch.empty
  rw [foldl_get_spec]
  simp

theorem batchRequestsFrom_idOf (reqs : List (String × String)) (i : Nat)
    (hi : i < reqs.length) :
    idOf (batchRequestsFrom 0 reqs) i = (reqs.getD i ("", "")).1 := by
  unfold idOf
  rw [batchRequestsFrom_getD reqs 0 i hi]

theorem mkBatch_inv (reqs : List (String × String)) (resp : Nat → Nat → SubResponse) :
    BatchInv (batchRequestsFrom 0 reqs) resp (mkBatch reqs) [] [] := by
  have hlen : (batchRequestsFrom 0 reqs).length = reqs.length :=
    batchRequestsFrom_length reqs 0
  rw [mkBatch_spec]
  refine ⟨rfl, ?_, ?_, ?_, ?_, ?_, ?_⟩
  · exact List.nodup_range' _ _
  · intro i hi
    rw [hlen]
    simpa using (List.mem_range'_1.mp hi).2
  · intro i _
    exact ⟨fun p hp => absurd hp (List.not_mem_nil p), rfl⟩
  · intro i hiA hiq
    exfalso
    apply hiq
    rw [hlen] at hiA
    exact List.mem_range'_1.mpr ⟨Nat.zero_le i, by simpa using hiA⟩
  · intro p hp
    exact absurd hp (List.not_mem_nil p)
  · exact List.nodup_nil

theorem batchRequestsFrom_index (reqs : List (String × String)) (i : Nat)
    (hi : i < reqs.length) :
    ((batchRequestsFrom 0 reqs).getD i default).index = i := by
  rw [batchRequestsFrom_getD reqs 0 i hi]
  exact Nat.zero_add i

theorem batchRequestsFrom_inj (reqs : List (String × String))
    (hids : (reqs.map Prod.fst).Nodup) :
    ∀ i, i < (batchRequestsFrom 0 reqs).length →
    ∀ j, j < (batchRequestsFrom 0 reqs).length →
    idOf (batchRequestsFrom 0 reqs) i = idOf (batchRequestsFrom 0 reqs) j → i = j := by
  intro i hi j hj hEq
  rw [batchRequestsFrom_length] at hi hj
  rw [batchRequestsFrom_idOf reqs i hi, batchRequestsFrom_idOf reqs j hj] at hEq
  have hi' : i < (reqs.map Prod.fst).length := by simpa using hi
  have hj' : j < (reqs.map Prod.fst).length := by simpa using hj
  have h1 : (reqs.map Prod.fst)[i] = (reqs.getD i ("", "")).1 := by
    rw [List.getElem_map, List.getD_eq_getElem _ _ hi]
  have h2 : (reqs.map Prod.fst)[j] = (reqs.getD j ("", "")).1 := by
    rw [List.getElem_map, List.getD_eq_getElem _ _ hj]
  exact (hids.getElem_inj_iff).mp (by rw [h1, h2, hEq])

/-- C1: for every sequence of batch.get calls with pairwise-distinct
ids followed by executeAll, the loop runs executeNext until the pending
queue is empty, and the merged map contains, exactly once, every id
whose sub-response had status 200 with its decoded content, while every
id that never received a 200 is absent.  The transport is a
well-behaved server answering each issued sub-request exactly once; the
run hypothesis says the fuelled loop finished, exactly as the source
loop terminates. -/
theorem executeAll_merged_map_spec (reqs : List (String × String))
    (resp : Nat → Nat → SubResponse)
    (hids : (reqs.map Prod.fst).Nodup)
    (HR : ∀ c i, (resp c i).index = i)
    (fuel : Nat) (stF : BatchState) (mF : RMap) (cF : Nat)
    (traceF : List (Nat × List Nat))
    (hrun : Batch.executeAll (mkTransport resp) fuel (mkBatch reqs) =
      .ok (some (stF, mF, cF, traceF))) :
    stF.requestsQueue = [] ∧
    (mF.map Prod.fst).Nodup ∧
    ∀ i, i < reqs.length →
      ((∃ p ∈ traceF, i ∈ p.2 ∧ (resp p.1 i).status = 200) →
        ∃ p ∈ traceF, i ∈ p.2 ∧ (resp p.1 i).status = 200 ∧
          mapGet mF (reqs.getD i ("", "")).1 =
            some (decodeContent (resp p.1 i).contentType (resp p.1 i).body)) ∧
      ((∀ p ∈ traceF, i ∈ p.2 → (resp p.1 i).status ≠ 200) →
        mapGet mF (reqs.getD i ("", "")).1 = none) := by
  have HA : ∀ i, i < (batchRequestsFrom 0 reqs).length →
      ((batchRequestsFrom 0 reqs).getD i default).index = i := by
    intro i hi
    rw [batchRequestsFrom_length] at hi
    exact batchRequestsFrom_index reqs i hi
  have Hinj := batchRequestsFrom_inj reqs hids
  obtain ⟨invF, hempty⟩ := executeAllAux_inv (batchRequestsFrom 0 reqs) resp HA Hinj HR
    fuel 0 (mkBatch reqs) [] [] stF mF cF traceF (mkBatch_inv reqs resp) hrun
  refine ⟨hempty, invF.keysNodup, ?_⟩
  intro i hi
  have hiA : i < (batchRequestsFrom 0 reqs).length := by
    rw [batchRequestsFrom_length]
    exact hi
  have hnotq : i ∉ stF.requestsQueue := by
    rw [hempty]
    exact List.not_mem_nil i
  have hdone := invF.qDone i hiA hnotq
  have hido : idOf (batchRequestsFrom 0 reqs) i = (reqs.getD i ("", "")).1 :=
    batchRequestsFrom_idOf reqs i hi
  constructor
  · rintro ⟨p, hp, hip, hs⟩
    rcases hdone with hok | hdrop
    · rcases hok with ⟨p', hp', hip', hs', hget⟩
      exact ⟨p', hp', hip', hs', by rw [← hido]; exact hget⟩
    · exact absurd hs (hdrop.1 p hp hip)
  · intro hall
    rcases hdone with hok | hdrop
    · rcases hok with ⟨p', hp', hip', hs', _⟩
      exact absurd hs' (hall p' hp' hip')
    · rw [← hido]
      exact hdrop.2

/-- Witness for C1: the one-request all-200 run finishes with an empty
queue and the decoded entry present. -/
theorem executeAll_merged_map_spec_witness :
    ({ allRequests := [⟨0, "a", "/a"⟩], requestsQueue := [], scopes := [],
       nextIndex := 1, retryAfter := 0 } : BatchState).requestsQueue = [] ∧
    ((([("a", Content.structured "x")] : RMap).map Prod.fst).Nodup) ∧
    ∀ i, i < reqsW.length →
      ((∃ p ∈ [((0 : Nat), [0])], i ∈ p.2 ∧ (respW p.1 i).status = 200) →
        ∃ p ∈ [((0 : Nat), [0])], i ∈ p.2 ∧ (respW p.1 i).status = 200 ∧
          mapGet [("a", Content.structured "x")] (reqsW.getD i ("", "")).1 =
            some (decodeContent (respW p.1 i).contentType (respW p.1 i).body)) ∧
      ((∀ p ∈ [((0 : Nat), [0])], i ∈ p.2 → (respW p.1 i).status ≠ 200) →
        mapGet [("a", Content.structured "x")] (reqsW.getD i ("", "")).1 = none) :=
  executeAll_merged_map_spec reqsW respW (by decide) (fun _ _ => rfl) 2
    { allRequests := [⟨0, "a", "/a"⟩], requestsQueue := [], scopes := [],
      nextIndex := 1, retryAfter := 0 }
    [("a", Content.structured "x")] 1 [(0, [0])] (by rfl)

/-- C2: a single executeNext call dequeues and issues the oldest
min(n, 20) pending requests in one transport call, never more than 20;
and the 25-unique-request scenario run with an all-200 transport makes
exactly 2 transport calls of sizes 20 and 5 and yields a 25-entry
result map. -/
theorem executeNext_batch_size :
    (∀ (st : BatchState) (tr : Transport) (c d : Nat) (st' : BatchState) (m1 : RMap)
      (issued : List BatchRequest),
      Batch.executeNext tr c st = (d, .ok (st', m1, issued)) →
      issued = (st.requestsQueue.take 20).map (fun i => st.allRequests.getD i default) ∧
      issued.length = min st.requestsQueue.length 20 ∧
      issued.length ≤ 20) ∧
    runCallCount run25 = some 2 ∧
    runTraceSizes run25 = some [20, 5] ∧
    runMapSize run25 = some 25 := by
  refine ⟨?_, by rfl, by rfl, by rfl⟩
  intro st tr c d st' m1 issued hx
  have hiss : issued =
      (st.requestsQueue.take 20).map (fun i => st.allRequests.getD i default) := by
    unfold Batch.executeNext at hx
    dsimp only at hx
    split at hx
    · simp only [Prod.mk.injEq, Except.ok.injEq] at hx
      obtain ⟨-, -, -, hI⟩ := hx
      have hq : st.requestsQueue = [] := by
        rename_i hEmpty
        simpa [List.isEmpty_iff] using hEmpty
      rw [← hI, hq]
      rfl
    · split at hx
      · simp at hx
      · simp only [Prod.mk.injEq, Except.ok.injEq] at hx
        obtain ⟨-, -, -, hI⟩ := hx
        exact hI.symm
  refine ⟨hiss, ?_, ?_⟩
  · rw [hiss, List.length_map, List.length_take, Nat.min_comm]
  · rw [hiss, List.length_map, List.length_take]
    exact Nat.min_le_left 20 _

theorem executeNext_fst (tr : Transport) (c : Nat) (st : BatchState) :
    (Batch.executeNext tr c st).1 = st.retryAfter := by
  unfold Batch.executeNext
  dsimp only
  split
  · rfl
  · split <;> rfl

theorem foldl_max_base_le (f : Nat → Nat) (l : List Nat) :
    ∀ a, a ≤ l.foldl (fun acc x => max acc (f x)) a := by
  induction l with
  | nil => intro a; exact Nat.le_refl a
  | cons x rest ih =>
    intro a
    exact le_trans (Nat.le_max_left a (f x)) (ih (max a (f x)))

theorem mem_le_foldl_max (f : Nat → Nat) (i : Nat) :
    ∀ (l : List Nat), i ∈ l → ∀ a, f i ≤ l.foldl (fun acc x => max acc (f x)) a := by
  intro l
  induction l with
  | nil =>
    intro hi
    simp at hi
  | cons x rest ih =>
    intro hi a
    rcases List.mem_cons.mp hi with h | h
    · rw [List.foldl_cons, ← h]
      exact le_trans (Nat.le_max_right a (f i)) (foldl_max_base_le f rest (max a (f i)))
    · rw [List.foldl_cons]
      exact ih h (max a (f x))

/-- Witness for C2: the general clause applied to the one-request
batch. -/
theorem executeNext_batch_size_witness :
    ([⟨0, "a", "/a"⟩] : List BatchRequest) =
      ((mkBatch reqsW).requestsQueue.take 20).map
        (fun i => (mkBatch reqsW).allRequests.getD i default) ∧
    ([⟨0, "a", "/a"⟩] : List BatchRequest).length =
      min (mkBatch reqsW).requestsQueue.length 20 ∧
    ([⟨0, "a", "/a"⟩] : List BatchRequest).length ≤ 20 :=
  executeNext_batch_size.1 (mkBatch reqsW) (mkTransport respW) 0 0
    { allRequests := [⟨0, "a", "/a"⟩], requestsQueue := [], scopes := [],
      nextIndex := 1, retryAfter := 0 }
    [("a", Content.structured "x")] [⟨0, "a", "/a"⟩] (by rfl)

/-- C3 (amended): every 429 sub-response is re-enqueued by an unshift
onto the front of the queue as it is processed, so the new queue is
the reversed list of this round's throttled indices followed by the
untouched remainder; hence each throttled request is ahead of every
request still pending from before the call (in particular every
later-added request outside this round), its id is absent from the
round map, retryAfter is the running maximum of the effective
Retry-After values (so at least each one), and the next executeNext
call sleeps exactly that many seconds before anything else.  When
several sub-responses of one round are throttled, the later-processed
one ends up in front, which is the one deviation from the original
claim. -/
theorem executeNext_throttle_amended (A : List BatchRequest) (resp : Nat → Nat → SubResponse)
    (st : BatchState) (c d : Nat) (st' : BatchState) (m1 : RMap)
    (issued : List BatchRequest)
    (hall : st.allRequests = A)
    (hne : st.requestsQueue ≠ [])
    (hnodup : st.requestsQueue.Nodup)
    (hlt : ∀ i ∈ st.requestsQueue, i < A.length)
    (HA : ∀ i, i < A.length → (A.getD i default).index = i)
    (HR : ∀ i, (resp c i).index = i)
    (hinj : ∀ i, i < A.length → ∀ j, j < A.length → idOf A i = idOf A j → i = j)
    (hx : Batch.executeNext (mkTransport resp) c st = (d, .ok (st', m1, issued))) :
    d = st.retryAfter ∧
    st'.requestsQueue = (round429 resp c (st.requestsQueue.take 20)).reverse ++
      st.requestsQueue.drop 20 ∧
    st'.retryAfter = roundRetry resp c (st.requestsQueue.take 20) 0 ∧
    (∀ i ∈ st.requestsQueue.take 20, (resp c i).status = 429 →
      i ∈ st'.requestsQueue ∧
      mapGet m1 (idOf A i) = none ∧
      effectiveRetryAfter (resp c i).retryAfterHeader ≤ st'.retryAfter ∧
      ∀ j ∈ st.requestsQueue.drop 20,
        st'.requestsQueue.indexOf i < st'.requestsQueue.indexOf j) ∧
    (∀ (tr' : Transport) (c' : Nat), (Batch.executeNext tr' c' st').1 = st'.retryAfter) := by
  have hnbq : ∀ i ∈ st.requestsQueue.take 20, i ∈ st.requestsQueue := by
    intro i hi
    rw [← List.take_append_drop 20 st.requestsQueue]
    exact List.mem_append_left _ hi
  have hql : (st.requestsQueue.take 20 ++ st.requestsQueue.drop 20).Nodup := by
    rw [List.take_append_drop]
    exact hnodup
  obtain ⟨hnbN, hrestN, hdisj⟩ := List.nodup_append.mp hql
  have hnbLt : ∀ i ∈ st.requestsQueue.take 20, i < A.length :=
    fun i hi => hlt i (hnbq i hi)
  have hids : ∀ i ∈ st.requestsQueue.take 20, ∀ j ∈ st.requestsQueue.take 20,
      idOf A i = idOf A j → i = j :=
    fun i hi j hj => hinj i (hnbLt i hi) j (hnbLt j hj)
  have HAnb : ∀ i ∈ st.requestsQueue.take 20, (A.getD i default).index = i :=
    fun i hi => HA i (hnbLt i hi)
  have hmk := executeNext_mk A resp st c hall hne HAnb (HR) hids hnbN
  rw [hmk] at hx
  simp only [Prod.mk.injEq, Except.ok.injEq] at hx
  obtain ⟨hd, hst', hm1, -⟩ := hx
  have hQ : st'.requestsQueue = (round429 resp c (st.requestsQueue.take 20)).reverse ++
      st.requestsQueue.drop 20 := by
    rw [← hst']
  have hRA : st'.retryAfter = roundRetry resp c (st.requestsQueue.take 20) 0 := by
    rw [← hst']
  refine ⟨hd.symm, hQ, hRA, ?_, fun tr' c' => executeNext_fst tr' c' st'⟩
  intro i hi h429
  have hi429 : i ∈ round429 resp c (st.requestsQueue.take 20) :=
    List.mem_filter.mpr ⟨hi, by simp [h429]⟩
  refine ⟨?_, ?_, ?_, ?_⟩
  · rw [hQ]
    exact List.mem_append_left _ (List.mem_reverse.mpr hi429)
  · rw [← hm1]
    apply mapGet_roundMap_none
    intro j hj hj200 hEq
    have hji : j = i := hids j hj i hi hEq
    rw [hji] at hj200
    rw [hj200] at h429
    exact absurd h429 (by decide)
  · rw [hRA]
    unfold roundRetry
    exact mem_le_foldl_max
      (fun j => effectiveRetryAfter (resp c j).retryAfterHeader) i _ hi429 0
  · intro j hj
    have hjnb : j ∉ st.requestsQueue.take 20 := fun hc => hdisj hc hj
    have hjrev : j ∉ (round429 resp c (st.requestsQueue.take 20)).reverse := by
      intro hc
      exact hjnb (List.mem_filter.mp (List.mem_reverse.mp hc)).1
    rw [hQ, List.indexOf_append_of_mem (List.mem_reverse.mpr hi429),
      List.indexOf_append_of_not_mem hjrev]
    exact lt_of_lt_of_le
      (List.indexOf_lt_length.mpr (List.mem_reverse.mpr hi429))
      (Nat.le_add_right _ _)

/-- Counterexample against C3 as stated: with two queued requests 0
and 1 (1 added after 0) both throttled in the same round, the 429
handler unshifts 1 after 0, leaving the queue [1, 0], where request 0
sits behind the later-added request 1. -/
theorem executeNext_throttle_cex : ¬ throttledAheadStrict := by
  intro h
  have h2 := h resp429 (mkBatch [("a", "/a"), ("b", "/b")]) 0 0
    { allRequests := [⟨0, "a", "/a"⟩, ⟨1, "b", "/b"⟩], requestsQueue := [1, 0],
      scopes := [], nextIndex := 2, retryAfter := 2 }
    [] [⟨0, "a", "/a"⟩, ⟨1, "b", "/b"⟩]
    (by decide) (fun i => rfl) (by rfl)
    0 (by decide) (by rfl)
    1 (by decide) (by decide)
  exact absurd h2 (by decide)

/-- Witness for C3 (amended): the single-request throttled round. -/
theorem executeNext_throttle_amended_witness :
    (0 : Nat) = (mkBatch reqsW).retryAfter ∧
    st429W.requestsQueue =
      (round429 resp429 0 ((mkBatch reqsW).requestsQueue.take 20)).reverse ++
        (mkBatch reqsW).requestsQueue.drop 20 ∧
    st429W.retryAfter = roundRetry resp429 0 ((mkBatch reqsW).requestsQueue.take 20) 0 ∧
    (∀ i ∈ (mkBatch reqsW).requestsQueue.take 20, (resp429 0 i).status = 429 →
      i ∈ st429W.requestsQueue ∧
      mapGet [] (idOf [⟨0, "a", "/a"⟩] i) = none ∧
      effectiveRetryAfter (resp429 0 i).retryAfterHeader ≤ st429W.retryAfter ∧
      ∀ j ∈ (mkBatch reqsW).requestsQueue.drop 20,
        st429W.requestsQueue.indexOf i < st429W.requestsQueue.indexOf j) ∧
    (∀ (tr' : Transport) (c' : Nat), (Batch.executeNext tr' c' st429W).1 = st429W.retryAfter) :=
  executeNext_throttle_amended [⟨0, "a", "/a"⟩] resp429 (mkBatch reqsW) 0 0
    st429W [] [⟨0, "a", "/a"⟩]
    (by rfl) (by decide) (by decide)
    (by decide)
    (by intro i hi; simp at hi; subst hi; rfl)
    (fun i => rfl)
    (by intro i hi j hj _; simp at hi hj; omega)
    (by rfl)

theorem processSub_queue_sub (all : List BatchRequest) (subs : List SubResponse) :
    ∀ (acc : List Nat × Nat × RMap) (i : Nat), i ∈ (subs.foldl (processSub all) acc).1 →
      i ∈ acc.1 ∨ ∃ r ∈ subs, r.index = i := by
  induction subs with
  | nil =>
    intro acc i hi
    left
    exact hi
  | cons r rest ih =>
    intro acc i hi
    rcases ih (processSub all acc r) i hi with h | ⟨r', hr', hri⟩
    · unfold processSub at h
      by_cases h200 : r.status = 200
      · simp only [h200, if_true] at h
        left
        exact h
      · by_cases h429 : r.status = 429
        · simp only [h200, h429, if_false, if_true] at h
          rcases List.mem_cons.mp h with h | h
          · right
            exact ⟨r, by simp, h.symm⟩
          · left
            exact h
        · simp only [h200, h429, if_false] at h
          left
          exact h
    · right
      exact ⟨r', by simp [hr'], hri⟩

theorem executeNext_queue_no_reenter (resp : Nat → Nat → SubResponse)
    (HR : ∀ c i, (resp c i).index = i)
    (st : BatchState) (c d : Nat) (st' : BatchState) (m1 : RMap)
    (issued : List BatchRequest) (i : Nat)
    (hwf : ∀ j ∈ st.requestsQueue.take 20, (st.allRequests.getD j default).index = j)
    (hout : i ∉ st.requestsQueue)
    (hx : Batch.executeNext (mkTransport resp) c st = (d, .ok (st', m1, issued))) :
    i ∉ st'.requestsQueue := by
  unfold Batch.executeNext at hx
  dsimp only at hx
  split at hx
  · simp only [Prod.mk.injEq, Except.ok.injEq] at hx
    obtain ⟨-, hst', -, -⟩ := hx
    rw [← hst']
    exact hout
  · split at hx
    · simp at hx
    · rename_i subs hsubs
      simp only [mkTransport, Except.ok.injEq] at hsubs
      simp only [Prod.mk.injEq, Except.ok.injEq] at hx
      obtain ⟨-, hst', -, -⟩ := hx
      intro hc
      rw [← hst'] at hc
      rcases processSub_queue_sub st.allRequests subs _ i hc with h | ⟨r, hr, hri⟩
      · apply hout
        rw [← List.take_append_drop 20 st.requestsQueue]
        exact List.mem_append_right _ h
      · rw [← hsubs] at hr
        rcases List.mem_map.mp hr with ⟨rq, hrq, hrrq⟩
        rcases List.mem_map.mp hrq with ⟨j, hj, hjrq⟩
        apply hout
        rw [← List.take_append_drop 20 st.requestsQueue]
        apply List.mem_append_left
        have : r.index = j := by
          rw [← hrrq, ← hjrq]
          show (resp c ((st.allRequests.getD j default).index)).index = j
          rw [hwf j hj, HR]
        rw [← hri, this]
        exact hj

theorem executeNext_mkTransport_ok (resp : Nat → Nat → SubResponse)
    (st : BatchState) (c : Nat) :
    exceptOk (Batch.executeNext (mkTransport resp) c st).2 = true := by
  unfold Batch.executeNext
  dsimp only
  split
  · rfl
  · split
    · rename_i e hsubs
      simp [mkTransport] at hsubs
    · rfl

/-- C4: a sub-response with a status that is neither 200 nor 429 is
silently dropped: its index is not re-enqueued in this round and, with
a well-behaved server, an index out of the queue can never re-enter on
any later executeNext call; its id is absent from the round map; and no
error is raised (the well-behaved transport path always returns ok). -/
theorem executeNext_drop_spec (A : List BatchRequest) (resp : Nat → Nat → SubResponse)
    (st : BatchState) (c d : Nat) (st' : BatchState) (m1 : RMap)
    (issued : List BatchRequest)
    (hall : st.allRequests = A)
    (hne : st.requestsQueue ≠ [])
    (hnodup : st.requestsQueue.Nodup)
    (hlt : ∀ i ∈ st.requestsQueue, i < A.length)
    (HA : ∀ i, i < A.length → (A.getD i default).index = i)
    (HR : ∀ c' i, (resp c' i).index = i)
    (hinj : ∀ i, i < A.length → ∀ j, j < A.length → idOf A i = idOf A j → i = j)
    (hx : Batch.executeNext (mkTransport resp) c st = (d, .ok (st', m1, issued))) :
    (∀ i ∈ st.requestsQueue.take 20,
      (resp c i).status ≠ 200 → (resp c i).status ≠ 429 →
      i ∉ st'.requestsQueue ∧ mapGet m1 (idOf A i) = none) ∧
    (∀ (c₂ d₂ : Nat) (st₂ st₂' : BatchState) (m₂ : RMap)
      (iss₂ : List BatchRequest) (i : Nat),
      (∀ j ∈ st₂.requestsQueue.take 20, (st₂.allRequests.getD j default).index = j) →
      i ∉ st₂.requestsQueue →
      Batch.executeNext (mkTransport resp) c₂ st₂ = (d₂, .ok (st₂', m₂, iss₂)) →
      i ∉ st₂'.requestsQueue) ∧
    (∀ (st₂ : BatchState) (c₂ : Nat),
      exceptOk (Batch.executeNext (mkTransport resp) c₂ st₂).2 = true) := by
  have hnbq : ∀ i ∈ st.requestsQueue.take 20, i ∈ st.requestsQueue := by
    intro i hi
    rw [← List.take_append_drop 20 st.requestsQueue]
    exact List.mem_append_left _ hi
  have hql : (st.requestsQueue.take 20 ++ st.requestsQueue.drop 20).Nodup := by
    rw [List.take_append_drop]
    exact hnodup
  obtain ⟨hnbN, hrestN, hdisj⟩ := List.nodup_append.mp hql
  have hnbLt : ∀ i ∈ st.requestsQueue.take 20, i < A.length :=
    fun i hi => hlt i (hnbq i hi)
  have hids : ∀ i ∈ st.requestsQueue.take 20, ∀ j ∈ st.requestsQueue.take 20,
      idOf A i = idOf A j → i = j :=
    fun i hi j hj => hinj i (hnbLt i hi) j (hnbLt j hj)
  have HAnb : ∀ i ∈ st.requestsQueue.take 20, (A.getD i default).index = i :=
    fun i hi => HA i (hnbLt i hi)
  have hmk := executeNext_mk A resp st c hall hne HAnb (HR c) hids hnbN
  rw [hmk] at hx
  simp only [Prod.mk.injEq, Except.ok.injEq] at hx
  obtain ⟨-, hst', hm1, -⟩ := hx
  refine ⟨?_, ?_, fun st₂ c₂ => executeNext_mkTransport_ok resp st₂ c₂⟩
  · intro i hi h200 h429
    constructor
    · rw [← hst']
      show i ∉ (round429 resp c (st.requestsQueue.take 20)).reverse ++
        st.requestsQueue.drop 20
      intro hc
      rcases List.mem_append.mp hc with hc' | hc'
      · have h' := List.mem_filter.mp (List.mem_reverse.mp hc')
        exact h429 (by simpa using h'.2)
      · exact hdisj hi hc'
    · rw [← hm1]
      apply mapGet_roundMap_none
      intro j hj hj200 hEq
      have hji : j = i := hids j hj i hi hEq
      rw [hji] at hj200
      exact h200 hj200
  · intro c₂ d₂ st₂ st₂' m₂ iss₂ i hwf hout hx₂
    exact executeNext_queue_no_reenter resp HR st₂ c₂ d₂ st₂' m₂ iss₂ i hwf hout hx₂

/-- Witness for C4: a single 404 sub-response is dropped. -/
theorem executeNext_drop_spec_witness :
    (∀ i ∈ (mkBatch reqsW).requestsQueue.take 20,
      (respDrop 0 i).status ≠ 200 → (respDrop 0 i).status ≠ 429 →
      i ∉ ({ allRequests := [⟨0, "a", "/a"⟩], requestsQueue := [], scopes := [],
             nextIndex := 1, retryAfter := 0 } : BatchState).requestsQueue ∧
      mapGet [] (idOf [⟨0, "a", "/a"⟩] i) = none) ∧
    (∀ (c₂ d₂ : Nat) (st₂ st₂' : BatchState) (m₂ : RMap)
      (iss₂ : List BatchRequest) (i : Nat),
      (∀ j ∈ st₂.requestsQueue.take 20, (st₂.allRequests.getD j default).index = j) →
      i ∉ st₂.requestsQueue →
      Batch.executeNext (mkTransport respDrop) c₂ st₂ = (d₂, .ok (st₂', m₂, iss₂)) →
      i ∉ st₂'.requestsQueue) ∧
    (∀ (st₂ : BatchState) (c₂ : Nat),
      exceptOk (Batch.executeNext (mkTransport respDrop) c₂ st₂).2 = true) :=
  executeNext_drop_spec [⟨0, "a", "/a"⟩] respDrop (mkBatch reqsW) 0 0
    { allRequests := [⟨0, "a", "/a"⟩], requestsQueue := [], scopes := [],
      nextIndex := 1, retryAfter := 0 }
    [] [⟨0, "a", "/a"⟩]
    (by rfl) (by decide) (by decide) (by decide)
    (by intro i hi; simp at hi; subst hi; rfl)
    (fun c' i => rfl)
    (by intro i hi j hj _; simp at hi hj; omega)
    (by rfl)

/-- C5 (amended): every 200 sub-response produces an entry keyed by
the caller's original id whose content is decodeContent of the declared
Content-Type and body; a string body whose Content-Type includes
image/jpeg, image/pjpeg or image/png (checked in that order) becomes
the corresponding base64 data-URI, a non-string body is passed through
as structured content, and a string body with any other declared
Content-Type yields an entry whose content is left unassigned, which is
the one deviation from the original claim. -/
theorem executeNext_200_decode (A : List BatchRequest) (resp : Nat → Nat → SubResponse)
    (st : BatchState) (c d : Nat) (st' : BatchState) (m1 : RMap)
    (issued : List BatchRequest)
    (hall : st.allRequests = A)
    (hne : st.requestsQueue ≠ [])
    (hnodup : st.requestsQueue.Nodup)
    (hlt : ∀ i ∈ st.requestsQueue, i < A.length)
    (HA : ∀ i, i < A.length → (A.getD i default).index = i)
    (HR : ∀ c' i, (resp c' i).index = i)
    (hinj : ∀ i, i < A.length → ∀ j, j < A.length → idOf A i = idOf A j → i = j)
    (hx : Batch.executeNext (mkTransport resp) c st = (d, .ok (st', m1, issued))) :
    (∀ i ∈ st.requestsQueue.take 20, (resp c i).status = 200 →
      mapGet m1 (idOf A i) =
        some (decodeContent (resp c i).contentType (resp c i).body)) ∧
    (∀ ct s, containsStr ct "image/jpeg" = true →
      decodeContent ct (.str s) = .text ("data:image/jpeg;base64," ++ s)) ∧
    (∀ ct s, containsStr ct "image/jpeg" = false → containsStr ct "image/pjpeg" = true →
      decodeContent ct (.str s) = .text ("data:image/pjpeg;base64," ++ s)) ∧
    (∀ ct s, containsStr ct "image/jpeg" = false → containsStr ct "image/pjpeg" = false →
      containsStr ct "image/png" = true →
      decodeContent ct (.str s) = .text ("data:image/png;base64," ++ s)) ∧
    (∀ ct s, containsStr ct "image/jpeg" = false → containsStr ct "image/pjpeg" = false →
      containsStr ct "image/png" = false → decodeContent ct (.str s) = .undef) ∧
    (∀ ct v, decodeContent ct (.structured v) = .structured v) := by
  have hnbq : ∀ i ∈ st.requestsQueue.take 20, i ∈ st.requestsQueue := by
    intro i hi
    rw [← List.take_append_drop 20 st.requestsQueue]
    exact List.mem_append_left _ hi
  have hql : (st.requestsQueue.take 20 ++ st.requestsQueue.drop 20).Nodup := by
    rw [List.take_append_drop]
    exact hnodup
  obtain ⟨hnbN, -, -⟩ := List.nodup_append.mp hql
  have hnbLt : ∀ i ∈ st.requestsQueue.take 20, i < A.length :=
    fun i hi => hlt i (hnbq i hi)
  have hids : ∀ i ∈ st.requestsQueue.take 20, ∀ j ∈ st.requestsQueue.take 20,
      idOf A i = idOf A j → i = j :=
    fun i hi j hj => hinj i (hnbLt i hi) j (hnbLt j hj)
  have HAnb : ∀ i ∈ st.requestsQueue.take 20, (A.getD i default).index = i :=
    fun i hi => HA i (hnbLt i hi)
  have hmk := executeNext_mk A resp st c hall hne HAnb (HR c) hids hnbN
  rw [hmk] at hx
  simp only [Prod.mk.injEq, Except.ok.injEq] at hx
  obtain ⟨-, -, hm1, -⟩ := hx
  refine ⟨?_, ?_, ?_, ?_, ?_, ?_⟩
  · intro i hi h200
    rw [← hm1]
    exact mapGet_roundMap_some A resp c _ i hi h200 hids
  · intro ct s h1
    simp [decodeContent, h1]
  · intro ct s h1 h2
    simp [decodeContent, h1, h2]
  · intro ct s h1 h2 h3
    simp [decodeContent, h1, h2, h3]
  · intro ct s h1 h2 h3
    simp [decodeContent, h1, h2, h3]
  · intro ct v
    rfl

/-- Counterexample against C5 as stated: a 200 sub-response with the
string body hello and declared Content-Type text/plain produces an
entry whose content is left unassigned, not the body passed through as
structured content. -/
theorem executeNext_200_decode_cex : ¬ stringBodyPassthroughStrict := by
  intro h
  have h2 := h respText (mkBatch reqsW) 0 0
    { allRequests := [⟨0, "a", "/a"⟩], requestsQueue := [], scopes := [],
      nextIndex := 1, retryAfter := 0 }
    [("a", Content.undef)] [⟨0, "a", "/a"⟩]
    (fun i => rfl) (by rfl)
    0 (by decide) (by rfl) "hello" (by rfl) (by decide) (by decide) (by decide)
  exact absurd h2 (by decide)

/-- Witness for C5 (amended): a single jpeg 200 sub-response. -/
theorem executeNext_200_decode_witness :
    (∀ i ∈ (mkBatch reqsW).requestsQueue.take 20, (respJpeg 0 i).status = 200 →
      mapGet [("a", Content.text "data:image/jpeg;base64,QkFTRTY0")]
        (idOf [⟨0, "a", "/a"⟩] i) =
        some (decodeContent (respJpeg 0 i).contentType (respJpeg 0 i).body)) ∧
    (∀ ct s, containsStr ct "image/jpeg" = true →
      decodeContent ct (.str s) = .text ("data:image/jpeg;base64," ++ s)) ∧
    (∀ ct s, containsStr ct "image/jpeg" = false → containsStr ct "image/pjpeg" = true →
      decodeContent ct (.str s) = .text ("data:image/pjpeg;base64," ++ s)) ∧
    (∀ ct s, containsStr ct "image/jpeg" = false → containsStr ct "image/pjpeg" = false →
      containsStr ct "image/png" = true →
      decodeContent ct (.str s) = .text ("data:image/png;base64," ++ s)) ∧
    (∀ ct s, containsStr ct "image/jpeg" = false → containsStr ct "image/pjpeg" = false →
      containsStr ct "image/png" = false → decodeContent ct (.str s) = .undef) ∧
    (∀ ct v, decodeContent ct (.structured v) = .structured v) :=
  executeNext_200_decode [⟨0, "a", "/a"⟩] respJpeg (mkBatch reqsW) 0 0
    { allRequests := [⟨0, "a", "/a"⟩], requestsQueue := [], scopes := [],
      nextIndex := 1, retryAfter := 0 }
    [("a", Content.text "data:image/jpeg;base64,QkFTRTY0")] [⟨0, "a", "/a"⟩]
    (by rfl) (by decide) (by decide) (by decide)
    (by intro i hi; simp at hi; subst hi; rfl)
    (fun c' i => rfl)
    (by intro i hi j hj _; simp at hi hj; omega)
    (by rfl)

theorem fold_notInCache (ce : Bool) (ch : String → Option (Option String)) (f : String) :
    ∀ (ids : List String) (acc : List (String × Option String) × BatchState × List String),
    (ids.foldl (groupIdStep ce ch f) acc).2.2 =
      acc.2.2 ++ ids.filter (groupIdQualifies ce ch) := by
  intro ids
  induction ids with
  | nil =>
    intro acc
    simp
  | cons id rest ih =>
    intro acc
    rw [List.foldl_cons, ih]
    have hstep : (groupIdStep ce ch f acc id).2.2 =
        acc.2.2 ++ if groupIdQualifies ce ch id then [id] else [] := by
      unfold groupIdStep groupIdQualifies
      cases hch : (if ce then ch id else none) with
      | some parsed => simp [hch]
      | none =>
        by_cases hid : id ≠ ""
        · simp [hch, hid]
        · simp [hch, hid]
    rw [hstep, List.filter_cons]
    by_cases hq : groupIdQualifies ce ch id
    · simp [hq, List.append_assoc]
    · simp [hq]

theorem fold_batchIds (ce : Bool) (ch : String → Option (Option String)) (f : String) :
    ∀ (ids : List String) (acc : List (String × Option String) × BatchState × List String),
    ((ids.foldl (groupIdStep ce ch f) acc).2.1.allRequests).map (fun rq => rq.id) =
      (acc.2.1.allRequests.map (fun rq => rq.id)) ++ ids.filter (groupIdQualifies ce ch) := by
  intro ids
  induction ids with
  | nil =>
    intro acc
    simp
  | cons id rest ih =>
    intro acc
    rw [List.foldl_cons, ih]
    have hstep : ((groupIdStep ce ch f acc id).2.1.allRequests).map (fun rq => rq.id) =
        (acc.2.1.allRequests.map (fun rq => rq.id)) ++
          if groupIdQualifies ce ch id then [id] else [] := by
      unfold groupIdStep groupIdQualifies
      cases hch : (if ce then ch id else none) with
      | some parsed => simp [hch]
      | none =>
        by_cases hid : id ≠ ""
        · simp [hch, hid, Batch.get]
        · simp [hch, hid]
    rw [hstep, List.filter_cons]
    by_cases hq : groupIdQualifies ce ch id
    · simp [hq, List.append_assoc]
    · simp [hq]

/-- C6: a rejected composite transport call propagates its exception
unchanged out of executeNext, executeAllAux and executeAll, and the
accessor getGroupsForGroupIds catches it and falls back to fetching
individually exactly the ids it had enqueued into the batch. -/
theorem transport_error_propagates :
    (∀ (tr : Transport) (st : BatchState) (c : Nat) (e : String),
      st.requestsQueue ≠ [] →
      tr c ((st.requestsQueue.take 20).map (fun i => st.allRequests.getD i default)) =
        .error e →
      Batch.executeNext tr c st = (st.retryAfter, .error e)) ∧
    (∀ (tr : Transport) (st : BatchState) (c fuel : Nat) (m : RMap)
      (trace : List (Nat × List Nat)) (e : String),
      st.requestsQueue ≠ [] →
      tr c ((st.requestsQueue.take 20).map (fun i => st.allRequests.getD i default)) =
        .error e →
      Batch.executeAllAux tr (fuel + 1) c st m trace = .error e) ∧
    (∀ (tr : Transport) (st : BatchState) (fuel : Nat) (e : String),
      st.requestsQueue ≠ [] →
      tr 0 ((st.requestsQueue.take 20).map (fun i => st.allRequests.getD i default)) =
        .error e →
      Batch.executeAll tr (fuel + 1) st = .error e) ∧
    (∀ (ce : Bool) (ch : String → Option (Option String)) (tr : Transport)
      (fuel : Nat) (gg : String → Except String (Option String)) (groupIds : List String)
      (filters e : String),
      groupIds ≠ [] →
      Batch.executeAll tr fuel
        ((groupIds.foldl (groupIdStep ce ch filters) ([], Batch.empty, [])).2.1) =
        .error e →
      (getGroupsForGroupIds ce ch tr fuel gg groupIds filters).2 =
        (((groupIds.foldl (groupIdStep ce ch filters)
          ([], Batch.empty, [])).2.1.allRequests).map (fun rq => rq.id))) := by
  have hnext : ∀ (tr : Transport) (st : BatchState) (c : Nat) (e : String),
      st.requestsQueue ≠ [] →
      tr c ((st.requestsQueue.take 20).map (fun i => st.allRequests.getD i default)) =
        .error e →
      Batch.executeNext tr c st = (st.retryAfter, .error e) := by
    intro tr st c e hne htr
    have hq : st.requestsQueue.isEmpty = false := by
      simpa [List.isEmpty_iff] using hne
    simp only [Batch.executeNext, hq, Bool.false_eq_true, if_false, htr]
  have haux : ∀ (tr : Transport) (st : BatchState) (c fuel : Nat) (m : RMap)
      (trace : List (Nat × List Nat)) (e : String),
      st.requestsQueue ≠ [] →
      tr c ((st.requestsQueue.take 20).map (fun i => st.allRequests.getD i default)) =
        .error e →
      Batch.executeAllAux tr (fuel + 1) c st m trace = .error e := by
    intro tr st c fuel m trace e hne htr
    unfold Batch.executeAllAux
    rw [if_neg (by simpa [List.isEmpty_iff] using hne), hnext tr st c e hne htr]
  refine ⟨hnext, haux, ?_, ?_⟩
  · intro tr st fuel e hne htr
    exact haux tr st 0 fuel [] [] e hne htr
  · intro ce ch tr fuel gg groupIds filters e hne herr
    unfold getGroupsForGroupIds
    rw [if_neg (by simpa [List.isEmpty_iff] using hne)]
    dsimp only
    rw [herr]
    have hnic : (groupIds.foldl (groupIdStep ce ch filters) ([], Batch.empty, [])).2.2 =
        groupIds.filter (groupIdQualifies ce ch) := by
      rw [fold_notInCache]
      rfl
    have hbids : (((groupIds.foldl (groupIdStep ce ch filters)
        ([], Batch.empty, [])).2.1.allRequests).map (fun rq => rq.id)) =
        groupIds.filter (groupIdQualifies ce ch) := by
      rw [fold_batchIds]
      rfl
    have hfil : groupIds.filter
        (fun id => ((groupIds.foldl (groupIdStep ce ch filters)
          ([], Batch.empty, [])).2.2).contains id) =
        groupIds.filter (groupIdQualifies ce ch) := by
      rw [hnic]
      apply List.filter_congr
      intro x hx
      by_cases hqx : groupIdQualifies ce ch x = true
      · have : x ∈ groupIds.filter (groupIdQualifies ce ch) :=
          List.mem_filter.mpr ⟨hx, hqx⟩
        rw [hqx]
        exact List.elem_iff.mpr this
      · have hxf : x ∉ groupIds.filter (groupIdQualifies ce ch) := by
          intro hc
          exact hqx (List.mem_filter.mp hc).2
        rw [Bool.eq_false_iff.mpr hqx]
        rw [Bool.eq_false_iff]
        intro hc
        exact hxf (List.elem_iff.mp hc)
    split
    · rename_i heq
      simp at heq
    · rename_i heq
      simp at heq
    · split
      · exact hfil.trans hbids.symm
      · exact hfil.trans hbids.symm

/-- Witness for C6: a one-request batch whose transport rejects. -/
theorem transport_error_propagates_witness :
    Batch.executeNext trFail 0 (mkBatch reqsW) =
      ((mkBatch reqsW).retryAfter, .error "network") ∧
    Batch.executeAllAux trFail 1 0 (mkBatch reqsW) [] [] = .error "network" ∧
    Batch.executeAll trFail 1 (mkBatch reqsW) = .error "network" ∧
    (getGroupsForGroupIds true (fun _ => none) trFail 1 (fun _ => .ok (some "g"))
      ["a"] "").2 =
      (((["a"].foldl (groupIdStep true (fun _ => none) "")
        ([], Batch.empty, [])).2.1.allRequests).map (fun rq => rq.id)) :=
  ⟨transport_error_propagates.1 trFail (mkBatch reqsW) 0 "network" (by decide) rfl,
   transport_error_propagates.2.1 trFail (mkBatch reqsW) 0 0 [] [] "network"
     (by decide) rfl,
   transport_error_propagates.2.2.1 trFail (mkBatch reqsW) 0 "network" (by decide) rfl,
   transport_error_propagates.2.2.2 true (fun _ => none) trFail 1
     (fun _ => .ok (some "g")) ["a"] "" "network" (by decide) (by rfl)⟩

/-! Page iterator step lemmas. -/

theorem next_of_hasNext_false {T : Type} (fetch : String → Option (CollectionResponse T))
    (it : GraphPageIterator T) (h : it.hasNext = false) :
    GraphPageIterator.next fetch it = (it, none, []) := by
  unfold GraphPageIterator.hasNext at h
  unfold GraphPageIterator.next
  rw [if_neg]
  simp [h]

theorem next_nonempty {T : Type} (fetch : String → Option (CollectionResponse T))
    (it : GraphPageIterator T) (resp : CollectionResponse T) (items : List T)
    (h : it.hasNext = true) (hf : fetch it.nextResource = some resp)
    (hv : resp.value = some items) (hne : items ≠ []) :
    GraphPageIterator.next fetch it =
      ({ value := it.value ++ items, nextLinkRaw := resp.odataNextLink,
         version := it.version }, some items, [it.nextResource]) := by
  unfold GraphPageIterator.hasNext at h
  unfold GraphPageIterator.next
  rw [if_pos h]
  dsimp only
  rw [hf]
  dsimp only
  rw [hv]
  dsimp only
  rw [if_pos]
  simpa [List.length_eq_zero] using hne

theorem next_emptypage {T : Type} (fetch : String → Option (CollectionResponse T))
    (it : GraphPageIterator T) (resp : CollectionResponse T)
    (h : it.hasNext = true) (hf : fetch it.nextResource = some resp)
    (hv : resp.value = none ∨ resp.value = some []) :
    GraphPageIterator.next fetch it = (it, none, [it.nextResource]) := by
  unfold GraphPageIterator.hasNext at h
  unfold GraphPageIterator.next
  rw [if_pos h]
  dsimp only
  rw [hf]
  dsimp only
  rcases hv with hv | hv
  · rw [hv]
  · rw [hv]
    simp

theorem next_nullresponse {T : Type} (fetch : String → Option (CollectionResponse T))
    (it : GraphPageIterator T)
    (h : it.hasNext = true) (hf : fetch it.nextResource = none) :
    GraphPageIterator.next fetch it = (it, none, [it.nextResource]) := by
  unfold GraphPageIterator.hasNext at h
  unfold GraphPageIterator.next
  rw [if_pos h]
  dsimp only
  rw [hf]

/-- C7 (amended): after a next call that fetched a page with a
non-empty item list, hasNext is false exactly when that response
carried no truthy continuation link; but a next-page response with
zero items (or without a value field, or a null response) leaves the
iterator unchanged, so its missing continuation link does not
terminate iteration, which is the deviation from the original claim;
and a terminated iterator stays terminated, since next returns
immediately. -/
theorem pageIterator_hasNext_amended {T : Type}
    (fetch : String → Option (CollectionResponse T)) (it : GraphPageIterator T) :
    (∀ (resp : CollectionResponse T) (items : List T),
      it.hasNext = true → fetch it.nextResource = some resp →
      resp.value = some items → items ≠ [] →
      (GraphPageIterator.next fetch it).1.hasNext = truthyLink resp.odataNextLink ∧
      (GraphPageIterator.next fetch it).1.nextLinkRaw = resp.odataNextLink) ∧
    (∀ resp : CollectionResponse T,
      it.hasNext = true → fetch it.nextResource = some resp →
      (resp.value = none ∨ resp.value = some []) →
      (GraphPageIterator.next fetch it).1 = it ∧
      (GraphPageIterator.next fetch it).1.hasNext = it.hasNext) ∧
    (it.hasNext = true → fetch it.nextResource = none →
      (GraphPageIterator.next fetch it).1 = it) ∧
    (it.hasNext = false → GraphPageIterator.next fetch it = (it, none, [])) := by
  refine ⟨?_, ?_, ?_, fun h => next_of_hasNext_false fetch it h⟩
  · intro resp items h hf hv hne
    rw [next_nonempty fetch it resp items h hf hv hne]
    exact ⟨rfl, rfl⟩
  · intro resp h hf hv
    rw [next_emptypage fetch it resp h hf hv]
    exact ⟨rfl, rfl⟩
  · intro h hf
    rw [next_nullresponse fetch it h hf]

/-- Counterexample against C7 as stated: an iterator with one page
pending receives a next-page response with zero items and no
continuation link; the code leaves the stored link untouched, so
hasNext stays true instead of becoming false. -/
theorem pageIterator_empty_cex : ¬ emptyPageTerminatesStrict := by
  intro h
  have h2 := h pageItW fetchEmptyW (by decide) (fun res => rfl)
  rw [next_emptypage fetchEmptyW pageItW ⟨some [], none⟩ (by decide) rfl (Or.inr rfl)]
    at h2
  exact absurd h2 (by decide)

/-- Witness for C7 (amended): a non-empty page with a further link
keeps hasNext true, an empty page leaves the iterator unchanged, and
an exhausted iterator returns immediately. -/
theorem pageIterator_hasNext_amended_witness :
    ((GraphPageIterator.next fetchMoreW pageItW).1.hasNext =
      truthyLink (some "v1.0/things?skip=2") ∧
     (GraphPageIterator.next fetchMoreW pageItW).1.nextLinkRaw =
      some "v1.0/things?skip=2") ∧
    ((GraphPageIterator.next fetchEmptyW pageItW).1 = pageItW ∧
     (GraphPageIterator.next fetchEmptyW pageItW).1.hasNext = pageItW.hasNext) ∧
    GraphPageIterator.next fetchEmptyW pageItEndW = (pageItEndW, none, []) :=
  ⟨(pageIterator_hasNext_amended fetchMoreW pageItW).1
      ⟨some [1], some "v1.0/things?skip=2"⟩ [1] (by decide) rfl rfl (by decide),
   (pageIterator_hasNext_amended fetchEmptyW pageItW).2.1
      ⟨some [], none⟩ (by decide) rfl (Or.inr rfl),
   (pageIterator_hasNext_amended fetchEmptyW pageItEndW).2.2.2 (by decide)⟩

/-- C8: createFromValue on the accumulated value and raw link of a
live created iterator (same graph version) rebuilds exactly the same
iterator state without taking a fetch oracle (no network call), so a
following next behaves identically to the live sequence; next on a
non-empty page appends the fetched items and returns only the
increment; and next resolves to null when there is no next link or the
page carried zero items. -/
theorem pageIterator_roundtrip {T : Type}
    (fetch : String → Option (CollectionResponse T))
    (resp0 : Option (CollectionResponse T)) (gv : String) (it0 : GraphPageIterator T)
    (hc : GraphPageIterator.create resp0 none gv = some it0) :
    GraphPageIterator.createFromValue it0.value it0.nextLinkRaw gv = it0 ∧
    GraphPageIterator.next fetch
      (GraphPageIterator.createFromValue it0.value it0.nextLinkRaw gv) =
      GraphPageIterator.next fetch it0 ∧
    (∀ (resp : CollectionResponse T) (items : List T),
      it0.hasNext = true → fetch it0.nextResource = some resp →
      resp.value = some items → items ≠ [] →
      (GraphPageIterator.next fetch it0).1.value = it0.value ++ items ∧
      (GraphPageIterator.next fetch it0).2.1 = some items) ∧
    (it0.hasNext = false → (GraphPageIterator.next fetch it0).2.1 = none) ∧
    (∀ resp : CollectionResponse T,
      it0.hasNext = true → fetch it0.nextResource = some resp →
      (resp.value = none ∨ resp.value = some []) →
      (GraphPageIterator.next fetch it0).2.1 = none) := by
  have hre : GraphPageIterator.createFromValue it0.value it0.nextLinkRaw gv = it0 := by
    unfold GraphPageIterator.create at hc
    cases resp0 with
    | none => simp at hc
    | some r =>
      dsimp only at hc
      cases hv : r.value with
      | none =>
        rw [hv] at hc
        simp at hc
      | some v =>
        rw [hv] at hc
        dsimp only at hc
        simp only [Option.some.injEq] at hc
        rw [← hc]
        rfl
  refine ⟨hre, by rw [hre], ?_, ?_, ?_⟩
  · intro resp items h hf hv hne
    rw [next_nonempty fetch it0 resp items h hf hv hne]
    exact ⟨rfl, rfl⟩
  · intro h
    rw [next_of_hasNext_false fetch it0 h]
  · intro resp h hf hv
    rw [next_emptypage fetch it0 resp h hf hv]

/-- Witness for C8: the concrete round trip on a one-item first page
and a one-item second page. -/
theorem pageIterator_roundtrip_witness :
    GraphPageIterator.createFromValue pageIt8W.value pageIt8W.nextLinkRaw "v1.0" =
      pageIt8W ∧
    (GraphPageIterator.next fetch8W
      (GraphPageIterator.createFromValue pageIt8W.value pageIt8W.nextLinkRaw "v1.0") =
      GraphPageIterator.next fetch8W pageIt8W) ∧
    (GraphPageIterator.next fetch8W pageIt8W).1.value = pageIt8W.value ++ [6] ∧
    (GraphPageIterator.next fetch8W pageIt8W).2.1 = some [6] := by
  have h := pageIterator_roundtrip fetch8W (some ⟨some [5], some "v1.0/next"⟩) "v1.0"
    pageIt8W rfl
  have h3 := h.2.2.1 ⟨some [6], none⟩ [6] (by decide) rfl rfl (by decide)
  exact ⟨h.1, h.2.1, h3.1, h3.2⟩

/-- C9: with effective invalidation period P, every accessor freshness
check treats a cache entry written at time T as fresh at read time
T + P - 1 and stale at T + P + 1, and the three cited call sites
(getContactPhoto, findGroups, getPersonCardGraphData) use literally the
same strict greater-than comparison, so the boundary strictness is
uniform (at exactly T + P the entry is already stale). -/
theorem ttl_boundary_uniform :
    (∀ (cat : Option Int) (dflt T : Int),
      contactPhotoFresh cat dflt (T + effectiveInvalidation cat dflt - 1) T ∧
      ¬ contactPhotoFresh cat dflt (T + effectiveInvalidation cat dflt + 1) T) ∧
    (∀ (cat : Option Int) (dflt T : Int),
      findGroupsFresh cat dflt (T + effectiveInvalidation cat dflt - 1) T ∧
      ¬ findGroupsFresh cat dflt (T + effectiveInvalidation cat dflt + 1) T) ∧
    (∀ (cat : Option Int) (dflt T : Int),
      personCardFresh cat dflt (T + effectiveInvalidation cat dflt - 1) T ∧
      ¬ personCardFresh cat dflt (T + effectiveInvalidation cat dflt + 1) T) ∧
    (∀ (cat : Option Int) (dflt now T : Int),
      (contactPhotoFresh cat dflt now T ↔ findGroupsFresh cat dflt now T) ∧
      (contactPhotoFresh cat dflt now T ↔ personCardFresh cat dflt now T)) := by
  refine ⟨?_, ?_, ?_, ?_⟩
  · intro cat dflt T
    unfold contactPhotoFresh getPhotoInvalidationTime
    constructor <;> omega
  · intro cat dflt T
    unfold findGroupsFresh getGroupsInvalidationTime
    constructor <;> omega
  · intro cat dflt T
    unfold personCardFresh getCardStateInvalidationTime
    constructor <;> omega
  · intro cat dflt now T
    unfold contactPhotoFresh findGroupsFresh personCardFresh
      getPhotoInvalidationTime getGroupsInvalidationTime getCardStateInvalidationTime
    exact ⟨Iff.rfl, Iff.rfl⟩

/-- Witness for C9: the boundary at a concrete configured period. -/
theorem ttl_boundary_uniform_witness :
    (contactPhotoFresh (some 5) 10 (100 + effectiveInvalidation (some 5) 10 - 1) 100 ∧
     ¬ contactPhotoFresh (some 5) 10 (100 + effectiveInvalidation (some 5) 10 + 1) 100) ∧
    (findGroupsFresh none 7 (3 + effectiveInvalidation none 7 - 1) 3 ∧
     ¬ findGroupsFresh none 7 (3 + effectiveInvalidation none 7 + 1) 3) ∧
    (contactPhotoFresh (some 0) 9 50 2 ↔ personCardFresh (some 0) 9 50 2) :=
  ⟨ttl_boundary_uniform.1 (some 5) 10 100,
   ttl_boundary_uniform.2.1 none 7 3,
   (ttl_boundary_uniform.2.2.2 (some 0) 9 50 2).2⟩

/-- C10: when the photo cache is disabled globally or for the photos
category, photoDetails stays undefined; a truthy me/photo metadata
response then makes the eTag comparison dereference undefined, the
TypeError is caught, and myPhoto returns null without fetching the
photo content. -/
theorem myPhoto_cache_disabled (categoryEnabled globalEnabled : Bool)
    (cached : Option CachePhoto) (photosPeriod : Option Int) (dflt now : Int)
    (r : ProfilePhotoMeta) (photoForMe : Option CachePhoto)
    (hdis : categoryEnabled = false ∨ globalEnabled = false) :
    myPhoto categoryEnabled globalEnabled cached photosPeriod dflt now
      (.ok (some r)) photoForMe = (none, false) := by
  have hce : (categoryEnabled && globalEnabled) = false := by
    rcases hdis with h | h <;> simp [h]
  unfold myPhoto
  rw [hce]
  simp

/-- Witness for C10: category flag off, metadata response present. -/
theorem myPhoto_cache_disabled_witness :
    myPhoto false true (some ⟨some "e", some "p", 0⟩) (some 5) 10 100
      (.ok (some ⟨some "etag"⟩)) (some ⟨none, some "photo", 0⟩) = (none, false) :=
  myPhoto_cache_disabled false true (some ⟨some "e", some "p", 0⟩) (some 5) 10 100
    ⟨some "etag"⟩ (some ⟨none, some "photo", 0⟩) (Or.inl rfl)

end Mgt
